import Mathlib

/-!
Bezier curve editor (`src/main.cpp`): evaluator and editing loop.

A shallow embedding of `src/main.cpp`.

Modelling conventions

* `double` values are rationals (no NaN, no infinities, no overflow).  Arithmetic on them is
  exact, except in two places where a claim depends on the rounding: the rescale handlers
  (`keyArrowUp`, `keyArrowDown`) and the evaluator variant `bezierDouble` round every operation
  with `roundDouble`, rounding to the nearest 53-bit significand with ties to even.
* `int` is modelled by `Int` / `Nat` without wrap-around; `(int)` casts of a `double` truncate
  toward zero.
* `std::vector<Point>` is a `List Point`.  An unchecked read `v[i]` with `i` past the end yields
  an unspecified value, supplied by a parameter `junk : Junk`; theorems quantify over it.
  Out-of-range *writes*, and any access to `curves[curves.size() - 1]` on an empty curve set, are
  faults: the handler returns `none`.
* Console output and the pixel surface are not modelled, except for the "Invalid order" report of
  `bezier`, which is the Boolean `bezierInvalidOrder`.
-/

namespace Bezier

/-! ## Geometry primitives -/

/-- A 2D point, `struct Point` of the source. -/
structure Point where
  x : ℚ
  y : ℚ
deriving DecidableEq, Repr

/-- A curve, `struct Curve` of the source. -/
structure Curve where
  controlPoints : List Point
  anchorPoints : List Point
  order : Int
deriving DecidableEq, Repr

/-- The value-initialised `Point()` returned by `bezier` on an invalid order. -/
def defaultPoint : Point := ⟨0, 0⟩

/-- Linear interpolation, `lerp` of the source. -/
def lerp (p1 p2 : Point) (t : ℚ) : Point :=
  ⟨p1.x + t * (p2.x - p1.x), p1.y + t * (p2.y - p1.y)⟩

/-- What an unchecked read past the end of a vector yields: a function of the vector and of
the index read. -/
abbrev Junk := List Point → Nat → Point

/-- The unchecked subscript `v[i]` of `std::vector<Point>`. -/
def vecRead (junk : Junk) (v : List Point) (i : Nat) : Point :=
  if h : i < v.length then v.get ⟨i, h⟩ else junk v i

/-! ## Rounding to `double` -/

/-- Rounding of a rational to the nearest integer, ties to the even one. -/
def roundHalfEven (m : ℚ) : Int :=
  if m - (⌊m⌋ : ℚ) < 1 / 2 then ⌊m⌋
  else if 1 / 2 < m - (⌊m⌋ : ℚ) then ⌊m⌋ + 1
  else if ⌊m⌋ % 2 = 0 then ⌊m⌋
  else ⌊m⌋ + 1

/-- The `double` nearest to a rational (IEEE binary64 round-to-nearest-even on the 53-bit
significand; the exponent range is not bounded, so overflow and subnormals are outside the
model): with `2^e <= |q| < 2^(e+1)`, the multiple of `2^(e-52)` nearest to `q`. -/
def roundDouble (q : ℚ) : ℚ :=
  if q = 0 then 0
  else (roundHalfEven (q / (2 : ℚ) ^ (Int.log 2 |q| - 52)) : ℚ) * (2 : ℚ) ^ (Int.log 2 |q| - 52)

/-- The value of the literal `1.1` of the source: the `double` nearest to 11/10. -/
def doubleOnePointOne : ℚ := roundDouble (11 / 10)

/-- A rational that is a `double`: rounding leaves it as it is. -/
def IsDouble (x : ℚ) : Prop := roundDouble x = x

/-- The function `lerp` of the source with every operation rounded to `double`. -/
def lerpDouble (p1 p2 : Point) (t : ℚ) : Point :=
  ⟨roundDouble (p1.x + roundDouble (t * roundDouble (p2.x - p1.x))),
   roundDouble (p1.y + roundDouble (t * roundDouble (p2.y - p1.y)))⟩

/-! ## The evaluator `bezier` -/

/-- The guard of `bezier`: `c.order < 1 || c.order != c.controlPoints.size() + 1`.
When it holds the function prints "Invalid order" and returns `Point()`. -/
def bezierInvalidOrder (c : Curve) : Bool :=
  decide (c.order < 1) || decide (c.order ≠ (c.controlPoints.length : Int) + 1)

/-- The initial working vector `tempPoints` of `bezier` (source lines 43-48). -/
def initTemp (junk : Junk) (c : Curve) : List Point :=
  [vecRead junk c.anchorPoints 0]
    ++ (List.range (c.order - 1).toNat).map (fun i => vecRead junk c.controlPoints i)
    ++ [vecRead junk c.anchorPoints 1]

/-- One pass of the inner loop of `bezier` (source lines 52-54): `order` pushes of
`lerp(tempPoints[i], tempPoints[i + 1], t)`. -/
def bezierRound (junk : Junk) (order : Nat) (t : ℚ) (temp : List Point) : List Point :=
  (List.range order).map (fun i => lerp (vecRead junk temp i) (vecRead junk temp (i + 1)) t)

/-- The outer loop of `bezier` (source lines 51-57), run for `k` rounds. -/
def bezierRounds (junk : Junk) (order : Nat) (t : ℚ) : Nat → List Point → List Point
  | 0, temp => temp
  | k + 1, temp => bezierRounds junk order t k (bezierRound junk order t temp)

/-- The function `bezier` of the source (lines 35-64). -/
def bezier (junk : Junk) (c : Curve) (t : ℚ) : Point :=
  if bezierInvalidOrder c then defaultPoint
  else
    let temp := bezierRounds junk c.order.toNat t c.order.toNat (initTemp junk c)
    ⟨(vecRead junk temp 0).x, (vecRead junk temp 0).y⟩

/-- One pass of the inner loop of `bezier` in `double` arithmetic. -/
def bezierRoundDouble (junk : Junk) (order : Nat) (t : ℚ) (temp : List Point) : List Point :=
  (List.range order).map
    (fun i => lerpDouble (vecRead junk temp i) (vecRead junk temp (i + 1)) t)

/-- The outer loop of `bezier` in `double` arithmetic, run for `k` rounds. -/
def bezierRoundsDouble (junk : Junk) (order : Nat) (t : ℚ) : Nat → List Point → List Point
  | 0, temp => temp
  | k + 1, temp => bezierRoundsDouble junk order t k (bezierRoundDouble junk order t temp)

/-- The function `bezier` of the source in `double` arithmetic: as `bezier`, with `lerpDouble`
in place of `lerp`. -/
def bezierDouble (junk : Junk) (c : Curve) (t : ℚ) : Point :=
  if bezierInvalidOrder c then defaultPoint
  else
    let temp := bezierRoundsDouble junk c.order.toNat t c.order.toNat (initTemp junk c)
    ⟨(vecRead junk temp 0).x, (vecRead junk temp 0).y⟩

/-- One subscript evaluation: the index used and the size of the vector it is applied to. -/
structure Access where
  index : Nat
  size : Nat
deriving DecidableEq, Repr

/-- An access is in range when its index is below the size of the vector. -/
def Access.inRange (a : Access) : Bool := decide (a.index < a.size)

/-- The subscripts evaluated by one pass of the inner loop on `temp`. -/
def roundAccesses (order : Nat) (temp : List Point) : List Access :=
  (List.range order).flatMap (fun i => [⟨i, temp.length⟩, ⟨i + 1, temp.length⟩])

/-- The subscripts evaluated by `k` rounds of the outer loop starting from `temp`. -/
def roundsAccesses (junk : Junk) (order : Nat) (t : ℚ) : Nat → List Point → List Access
  | 0, _ => []
  | k + 1, temp =>
      roundAccesses order temp ++ roundsAccesses junk order t k (bezierRound junk order t temp)

/-- Every vector subscript evaluated by a call `bezier(c, t)`, in program order. -/
def bezierAccesses (junk : Junk) (c : Curve) (t : ℚ) : List Access :=
  if bezierInvalidOrder c then []
  else
    [⟨0, c.anchorPoints.length⟩]
      ++ (List.range (c.order - 1).toNat).map (fun i => ⟨i, c.controlPoints.length⟩)
      ++ [⟨1, c.anchorPoints.length⟩]
      ++ roundsAccesses junk c.order.toNat t c.order.toNat (initTemp junk c)
      ++ [⟨0, (bezierRounds junk c.order.toNat t c.order.toNat (initTemp junk c)).length⟩,
          ⟨0, (bezierRounds junk c.order.toNat t c.order.toNat (initTemp junk c)).length⟩]

/-- A curve that `bezier` accepts and that has exactly two anchors. -/
def ValidCurve (c : Curve) : Prop :=
  1 ≤ c.order ∧ c.order = (c.controlPoints.length : Int) + 1 ∧ c.anchorPoints.length = 2

instance (c : Curve) : Decidable (ValidCurve c) := by
  unfold ValidCurve; infer_instance

/-- The control polygon `P_0, ..., P_n` of the spec: anchor 0, the control points, anchor 1. -/
def polygon (c : Curve) : List Point :=
  c.anchorPoints.take 1 ++ c.controlPoints ++ (c.anchorPoints.drop 1).take 1

/-- The Bernstein sum `sum_{i=0..n} C(n,i) (1-t)^(n-i) t^i f(i)` for one coordinate. -/
def bernsteinSum (n : Nat) (t : ℚ) (f : Nat → ℚ) : ℚ :=
  ∑ i in Finset.range (n + 1), (n.choose i : ℚ) * (1 - t) ^ (n - i) * t ^ i * f i

/-- The Bernstein-form Bezier point of the spec, componentwise, over the control polygon. -/
def bernsteinPoint (c : Curve) (t : ℚ) : Point :=
  ⟨bernsteinSum c.controlPoints.length.succ t (fun i => ((polygon c).getD i defaultPoint).x),
   bernsteinSum c.controlPoints.length.succ t (fun i => ((polygon c).getD i defaultPoint).y)⟩

/-! ## The sampler `calculatePoints` -/

/-- The assignment `v[i] = p` on a `std::vector<Point>`; an index past the end is a fault. -/
def vecWrite (v : List Point) (i : Nat) (p : Point) : Option (List Point) :=
  if i < v.length then some (v.set i p) else none

/-- The inner loop of `calculatePoints` (source lines 88-91) for curve number `c`, with `r`
iterations left and loop counter `i`: `t[i] = i * dt; curvePoints[i + c * num_points] =
bezier(cs[c], t[i])`. -/
def sampleLoop (junk : Junk) (cv : Curve) (c num_points : Nat) (dt : ℚ) :
    Nat → Nat → List Point → Option (List Point)
  | 0, _, curvePoints => some curvePoints
  | r + 1, i, curvePoints =>
      (vecWrite curvePoints (i + c * num_points) (bezier junk cv ((i : ℚ) * dt))).bind
        (sampleLoop junk cv c num_points dt r (i + 1))

/-- The outer loop of `calculatePoints` (source lines 86-92) over the curves still to do,
`c` being the index of the first of them. -/
def curveLoop (junk : Junk) (num_points : Nat) (dt : ℚ) :
    List Curve → Nat → List Point → Option (List Point)
  | [], _, curvePoints => some curvePoints
  | cv :: rest, c, curvePoints =>
      (sampleLoop junk cv c num_points dt num_points 0 curvePoints).bind
        (curveLoop junk num_points dt rest (c + 1))

/-- The function `calculatePoints` of the source (lines 81-93), `dt = 1.0 / num_points`. -/
def calculatePoints (junk : Junk) (cs : List Curve) (num_points : Nat) (curvePoints : List Point) :
    Option (List Point) :=
  curveLoop junk num_points ((1 : ℚ) / (num_points : ℚ)) cs 0 curvePoints

/-! ## Screen projection and the picking loops -/

/-- The constant `screenHeight` of `main`. -/
def screenHeight : Int := 1080

/-- The conversion `(int) d` of a `double`: truncation toward zero. -/
def truncInt (q : ℚ) : Int := Int.tdiv q.num (q.den : Int)

/-- Screen column of a point: `(int)(displayScale * p.x + displayOffsetX)`. -/
def toScreenX (displayScale displayOffsetX : ℚ) (p : Point) : Int :=
  truncInt (displayScale * p.x + displayOffsetX)

/-- Screen row of a point: `(int)(screenHeight - displayScale * p.y + displayOffsetY)`. -/
def toScreenY (displayScale displayOffsetY : ℚ) (p : Point) : Int :=
  truncInt ((screenHeight : ℚ) - displayScale * p.y + displayOffsetY)

/-- The test `abs(prevMouseX - x) <= 5 && abs(prevMouseY - y) <= 5` of the picking loops. -/
def hit (displayScale displayOffsetX displayOffsetY : ℚ) (prevMouseX prevMouseY : Int)
    (p : Point) : Bool :=
  decide (|prevMouseX - toScreenX displayScale displayOffsetX p| ≤ 5)
    && decide (|prevMouseY - toScreenY displayScale displayOffsetY p| ≤ 5)

/-- The activation loops (source lines 274-281 and 285-292): the engagement flag becomes `true`
at the first candidate that passes the test, and is left as it was when none does. -/
def flagLoop (test : Point → Bool) : List Point → Bool → Bool
  | [], flag => flag
  | p :: rest, flag => if test p then true else flagLoop test rest flag

/-- The re-pick loops of a drag tick (source lines 303-310 and 318-325): the index variable
receives the loop counter `i` of the first candidate that passes the test, and is left as it was
when none does. -/
def indexLoop (test : Point → Bool) : List Point → Nat → Int → Int
  | [], _, index => index
  | p :: rest, i, index => if test p then (i : Int) else indexLoop test rest (i + 1) index

/-! ## The session state and the handlers of the main loop -/

/-- The local variables of `main` that live across iterations of the display loop. -/
structure Session where
  curves : List Curve
  curvePoints : List Point
  num_points : Nat
  controlPoints : List Point
  anchorPoints : List Point
  displayScale : ℚ
  displayOffsetX : ℚ
  displayOffsetY : ℚ
  prevMouseX : Int
  prevMouseY : Int
  initialMouseX : Int
  initialMouseY : Int
  isDraggingControlPoint : Bool
  isDraggingAnchorPoint : Bool
  isDraggingScreen : Bool
  anchorPointIndex : Int
  controlPointIndex : Int
  showPoints : Bool
deriving DecidableEq, Repr

/-- The template `{ ctrlToAdd, anchorToAdd, 2 }` pushed by the N handler and at start-up. -/
def templateCurve : Curve := ⟨[⟨0, 1⟩], [⟨0, 0⟩, ⟨1, 1⟩], 2⟩

/-- The call `v.resize(n)` on a `std::vector<Point>`: new elements are `Point()`. -/
def vecResize (v : List Point) (n : Nat) : List Point :=
  v.take n ++ List.replicate (n - v.length) defaultPoint

/-- The state on entry to the display loop (source lines 96-140); `none` if the first call of
`calculatePoints` faults. -/
def initialSession (junk : Junk) : Option Session :=
  (calculatePoints junk [templateCurve] 1000 (List.replicate 1000 defaultPoint)).map
    fun pts =>
      { curves := [templateCurve]
        curvePoints := pts
        num_points := 1000
        controlPoints := [⟨0, 1⟩]
        anchorPoints := [⟨0, 0⟩, ⟨1, 1⟩]
        displayScale := 800
        displayOffsetX := 1920 / 4
        displayOffsetY := -1080 / 4
        prevMouseX := -1
        prevMouseY := -1
        initialMouseX := -1
        initialMouseY := -1
        isDraggingControlPoint := false
        isDraggingAnchorPoint := false
        isDraggingScreen := false
        anchorPointIndex := -1
        controlPointIndex := -1
        showPoints := true }

/-- An update of `curves[curves.size() - 1]`; on an empty curve set the subscript is
`size_t(-1)` and the access is a fault. -/
def modifyLast (f : Curve → Option Curve) (curves : List Curve) : Option (List Curve) :=
  match curves.getLast? with
  | none => none
  | some c => (f c).map fun c1 => curves.dropLast ++ [c1]

/-- The key P handler (source lines 143-165). -/
def keyP (junk : Junk) (s : Session) : Option Session :=
  match s.curves.getLast? with
  | none => none
  | some last =>
    (modifyLast
        (fun c => some { c with controlPoints := c.controlPoints ++ [Point.mk 0 0],
                                order := ((c.controlPoints ++ [Point.mk 0 0]).length : Int) + 1 })
        s.curves).bind fun curves1 =>
      (calculatePoints junk curves1 s.num_points s.curvePoints).map fun pts =>
        { s with controlPoints := last.controlPoints, anchorPoints := last.anchorPoints,
                 curves := curves1, curvePoints := pts }

/-- The push-and-recompute branch of the key N handler (source lines 178-183, 188-192). -/
def pushTemplate (junk : Junk) (s : Session) : Option Session :=
  (calculatePoints junk (s.curves ++ [templateCurve]) s.num_points
      (vecResize s.curvePoints (s.num_points * (s.curves ++ [templateCurve]).length))).map
    fun pts => { s with curves := s.curves ++ [templateCurve], curvePoints := pts }

/-- The key N handler (source lines 167-194). -/
def keyN (junk : Junk) (s : Session) : Option Session :=
  match s.curves.getLast? with
  | some last =>
    if last.controlPoints = templateCurve.controlPoints
        ∧ last.anchorPoints = templateCurve.anchorPoints then
      some s
    else pushTemplate junk s
  | none => pushTemplate junk s

/-- The key D handler (source lines 196-217); `held` is `display.is_keyD()`. -/
def keyD (held : Bool) (mouseX mouseY : Int) (s : Session) : Session :=
  if held then
    if !s.isDraggingScreen then
      { s with initialMouseX := mouseX, initialMouseY := mouseY, isDraggingScreen := true }
    else
      { s with displayOffsetX := s.displayOffsetX + ((mouseX - s.initialMouseX : Int) : ℚ),
               displayOffsetY := s.displayOffsetY + ((mouseY - s.initialMouseY : Int) : ℚ),
               initialMouseX := mouseX, initialMouseY := mouseY }
  else
    { s with isDraggingScreen := false, initialMouseX := -1, initialMouseY := -1 }

/-- The marker rendering block (source lines 223-232), as far as it changes the session: the
snapshot of the last curve. -/
def renderMarkers (s : Session) : Option Session :=
  if s.showPoints then
    match s.curves.getLast? with
    | none => none
    | some last =>
      some { s with controlPoints := last.controlPoints, anchorPoints := last.anchorPoints }
  else some s

/-- The key H handler (source lines 234-237). -/
def keyH (s : Session) : Session := { s with showPoints := !s.showPoints }

/-- The tail shared by both arrow handlers: `curvePoints.resize(num_points * curves.size());
calculatePoints(curves, num_points, curvePoints)`. -/
def resample (junk : Junk) (s : Session) : Option Session :=
  (calculatePoints junk s.curves s.num_points
      (vecResize s.curvePoints (s.num_points * s.curves.length))).map
    fun pts => { s with curvePoints := pts }

/-- The ARROWUP handler (source lines 246-251): `displayScale *= 1.1; num_points *= 1.1;` in
`double` arithmetic, the product for `num_points` being converted back to `int`. -/
def keyArrowUp (junk : Junk) (s : Session) : Option Session :=
  resample junk
    { s with displayScale := roundDouble (s.displayScale * doubleOnePointOne),
             num_points :=
               (truncInt (roundDouble ((s.num_points : ℚ) * doubleOnePointOne))).toNat }

/-- The ARROWDOWN handler (source lines 252-257): `displayScale /= 1.1; num_points /= 1.1;` in
`double` arithmetic, the quotient for `num_points` being converted back to `int`. -/
def keyArrowDown (junk : Junk) (s : Session) : Option Session :=
  resample junk
    { s with displayScale := roundDouble (s.displayScale / doubleOnePointOne),
             num_points :=
               (truncInt (roundDouble ((s.num_points : ℚ) / doubleOnePointOne))).toNat }

/-- The update `pts[index].x += dx / displayScale; pts[index].y -= dy / displayScale`; an index
outside the vector is a fault. -/
def movePoint (pts : List Point) (index : Int) (dx dy : Int) (displayScale : ℚ) :
    Option (List Point) :=
  if 0 ≤ index then
    match pts.get? index.toNat with
    | none => none
    | some q =>
      some (pts.set index.toNat ⟨q.x + (dx : ℚ) / displayScale, q.y - (dy : ℚ) / displayScale⟩)
  else none

/-- The activation branch of the space handler (source lines 264-294). -/
def dragActivate (mouseX mouseY : Int) (s : Session) : Option Session :=
  match s.curves.getLast? with
  | none => none
  | some last =>
    let test := hit s.displayScale s.displayOffsetX s.displayOffsetY mouseX mouseY
    let flagC := flagLoop test last.controlPoints s.isDraggingControlPoint
    some { s with controlPoints := last.controlPoints, anchorPoints := last.anchorPoints,
                  prevMouseX := mouseX, prevMouseY := mouseY,
                  isDraggingControlPoint := flagC,
                  isDraggingAnchorPoint :=
                    if !flagC then flagLoop test last.anchorPoints s.isDraggingAnchorPoint
                    else s.isDraggingAnchorPoint }

/-- The point update of a drag tick (source lines 301-331), before the recomputation. -/
def dragUpdate (mouseX mouseY : Int) (s : Session) : Option Session :=
  let dx := mouseX - s.prevMouseX
  let dy := mouseY - s.prevMouseY
  let test := hit s.displayScale s.displayOffsetX s.displayOffsetY s.prevMouseX s.prevMouseY
  if s.isDraggingControlPoint then
    let index := indexLoop test s.controlPoints 0 s.controlPointIndex
    (modifyLast
        (fun c => (movePoint c.controlPoints index dx dy s.displayScale).map
          fun pts => { c with controlPoints := pts })
        s.curves).map fun curves1 => { s with controlPointIndex := index, curves := curves1 }
  else if s.isDraggingAnchorPoint then
    let index := indexLoop test s.anchorPoints 0 s.anchorPointIndex
    (modifyLast
        (fun c => (movePoint c.anchorPoints index dx dy s.displayScale).map
          fun pts => { c with anchorPoints := pts })
        s.curves).map fun curves1 => { s with anchorPointIndex := index, curves := curves1 }
  else some s

/-- The tick branch of the space handler (source lines 295-339). -/
def dragTick (junk : Junk) (mouseX mouseY : Int) (s : Session) : Option Session :=
  (dragUpdate mouseX mouseY s).bind fun s1 =>
    (calculatePoints junk s1.curves s1.num_points s1.curvePoints).map fun pts =>
      { s1 with curvePoints := pts, prevMouseX := mouseX, prevMouseY := mouseY }

/-- The space handler (source lines 259-348); `held` is `display.is_keySPACE()`. -/
def keySpace (junk : Junk) (held : Bool) (mouseX mouseY : Int) (s : Session) : Option Session :=
  if held && s.showPoints then
    if s.prevMouseX = -1 ∧ s.prevMouseY = -1 then dragActivate mouseX mouseY s
    else dragTick junk mouseX mouseY s
  else
    some { s with prevMouseX := -1, prevMouseY := -1,
                  isDraggingControlPoint := false, isDraggingAnchorPoint := false }

/-- The key C handler (source lines 351-356). -/
def keyC (s : Session) : Session := { s with curves := [], curvePoints := [] }

/-- The blocks of the loop body that change the session, with the input they poll. -/
inductive Intent where
  | addControlPoint
  | addCurve
  | pan (held : Bool) (mouseX mouseY : Int)
  | render
  | toggleMarkers
  | rescaleUp
  | rescaleDown
  | drag (held : Bool) (mouseX mouseY : Int)
  | clear
deriving DecidableEq, Repr

/-- One block of the loop body applied to a session; `none` is a fault. -/
def applyIntent (junk : Junk) : Intent → Session → Option Session
  | .addControlPoint, s => keyP junk s
  | .addCurve, s => keyN junk s
  | .pan held mx my, s => some (keyD held mx my s)
  | .render, s => renderMarkers s
  | .toggleMarkers, s => some (keyH s)
  | .rescaleUp, s => keyArrowUp junk s
  | .rescaleDown, s => keyArrowDown junk s
  | .drag held mx my, s => keySpace junk held mx my s
  | .clear, s => some (keyC s)

/-- A run of blocks, stopping at the first fault. -/
def applyIntents (junk : Junk) : List Intent → Session → Option Session
  | [], s => some s
  | a :: rest, s => (applyIntent junk a s).bind (applyIntents junk rest)

/-- The input polled during one iteration of the display loop: the keys and pointer seen before
`display.wait()` and those seen after it. -/
structure FrameInput where
  keyP : Bool
  keyN : Bool
  keyD : Bool
  keyH : Bool
  mouseX : Int
  mouseY : Int
  keyUp : Bool
  keyDown : Bool
  keySpace : Bool
  keyC : Bool
  mouseX1 : Int
  mouseY1 : Int
deriving DecidableEq, Repr

/-- The blocks run by one iteration of the display loop (source lines 142-360), in order. -/
def frameIntents (inp : FrameInput) : List Intent :=
  (if inp.keyP then [Intent.addControlPoint] else [])
    ++ (if inp.keyN then [Intent.addCurve] else [])
    ++ [Intent.pan inp.keyD inp.mouseX inp.mouseY, Intent.render]
    ++ (if inp.keyH then [Intent.toggleMarkers] else [])
    ++ (if inp.keyUp then [Intent.rescaleUp] else [])
    ++ (if inp.keyDown then [Intent.rescaleDown] else [])
    ++ [Intent.drag inp.keySpace inp.mouseX1 inp.mouseY1]
    ++ (if inp.keyC then [Intent.clear] else [])

/-- One iteration of the display loop. -/
def frame (junk : Junk) (inp : FrameInput) (s : Session) : Option Session :=
  applyIntents junk (frameIntents inp) s

/-- The states the loop can be in: those obtained from the initial state by a run of blocks
without fault. -/
def Reachable (junk : Junk) (s : Session) : Prop :=
  ∃ s0 intents, initialSession junk = some s0 ∧ applyIntents junk intents s0 = some s

/-- Consecutive iterations of the space handler with the key held, one per pointer position
polled. -/
def dragRun (junk : Junk) : List (Int × Int) → Session → Option Session
  | [], s => some s
  | p :: rest, s => (keySpace junk true p.1 p.2 s).bind (dragRun junk rest)

/-- Consecutive iterations of the key D handler with the key held, one per pointer position
polled. -/
def panRun : List (Int × Int) → Session → Session
  | [], s => s
  | p :: rest, s => panRun rest (keyD true p.1 p.2 s)

/-- Consecutive iterations of the display loop, one per polled input, stopping at the first
fault. -/
def frameRun (junk : Junk) : List FrameInput → Session → Option Session
  | [], s => some s
  | f :: rest, s => (frame junk f s).bind (frameRun junk rest)

/-! ## Scenario data -/

/-- A value for stale reads, used in the worked examples. -/
def sevenJunk : Junk := fun _ _ => ⟨7, 7⟩

/-- A small session: the template curve sampled with `num_points = 2`, the other variables as
at start-up. -/
def demoSession : Session :=
  { curves := [templateCurve]
    curvePoints := [⟨0, 0⟩, ⟨1 / 4, 3 / 4⟩]
    num_points := 2
    controlPoints := [⟨0, 1⟩]
    anchorPoints := [⟨0, 0⟩, ⟨1, 1⟩]
    displayScale := 800
    displayOffsetX := 1920 / 4
    displayOffsetY := -1080 / 4
    prevMouseX := -1
    prevMouseY := -1
    initialMouseX := -1
    initialMouseY := -1
    isDraggingControlPoint := false
    isDraggingAnchorPoint := false
    isDraggingScreen := false
    anchorPointIndex := -1
    controlPointIndex := -1
    showPoints := true }

/-- The small session in the middle of a drag of its control point (0,1), whose pixel position
is (480,10): the pointer was last seen there and the control flag is set. -/
def dragSession : Session :=
  { demoSession with prevMouseX := 480, prevMouseY := 10, isDraggingControlPoint := true }

/-- The state on entry to the display loop, written out: the buffer holds the 1000 samples
of the template curve. -/
def startSession (junk : Junk) : Session :=
  { curves := [templateCurve]
    curvePoints := (List.range 1000).map fun (i : Nat) =>
      bezier junk templateCurve ((i : ℚ) / ((1000 : Nat) : ℚ))
    num_points := 1000
    controlPoints := [⟨0, 1⟩]
    anchorPoints := [⟨0, 0⟩, ⟨1, 1⟩]
    displayScale := 800
    displayOffsetX := 1920 / 4
    displayOffsetY := -1080 / 4
    prevMouseX := -1
    prevMouseY := -1
    initialMouseX := -1
    initialMouseY := -1
    isDraggingControlPoint := false
    isDraggingAnchorPoint := false
    isDraggingScreen := false
    anchorPointIndex := -1
    controlPointIndex := -1
    showPoints := true }

/-- The state after the loop is entered and key P is handled once: the only curve has a second
control point (0,0) and order 3, and the buffer holds its 1000 samples. -/
def afterKeyP (junk : Junk) : Session :=
  { startSession junk with
    curves := [⟨[⟨0, 1⟩, ⟨0, 0⟩], [⟨0, 0⟩, ⟨1, 1⟩], 3⟩]
    curvePoints := (List.range 1000).map fun (i : Nat) =>
      bezier junk ⟨[⟨0, 1⟩, ⟨0, 0⟩], [⟨0, 0⟩, ⟨1, 1⟩], 3⟩ ((i : ℚ) / ((1000 : Nat) : ℚ)) }

/-- A session with two curves, a straight line and the template, one sample per curve, in the
middle of a drag of the control point (0,1) of the last curve. -/
def twoCurveDrag : Session :=
  { dragSession with
    curves := [⟨[], [⟨0, 0⟩, ⟨1, 1⟩], 1⟩, templateCurve]
    curvePoints := [⟨0, 0⟩, ⟨0, 0⟩]
    num_points := 1 }

/-- The session `twoCurveDrag` after the pointer has moved to pixel (488,26). -/
def twoCurveDragged : Session :=
  { twoCurveDrag with
    curves := [⟨[], [⟨0, 0⟩, ⟨1, 1⟩], 1⟩, ⟨[⟨1 / 100, 49 / 50⟩], [⟨0, 0⟩, ⟨1, 1⟩], 2⟩]
    controlPointIndex := 0
    prevMouseX := 488
    prevMouseY := 26 }

/-- The small session after space is held through the pointer positions (0,0), (-1,-1),
(480,10), (488,26): the control point of the template has moved to (1/100, 49/50). -/
def windowExitDragged : Session :=
  { demoSession with
    curves := [⟨[⟨1 / 100, 49 / 50⟩], [⟨0, 0⟩, ⟨1, 1⟩], 2⟩]
    curvePoints := [⟨0, 0⟩, ⟨51 / 200, 37 / 50⟩]
    prevMouseX := 488
    prevMouseY := 26
    isDraggingControlPoint := true
    controlPointIndex := 0 }

/-- A loop iteration in which only space is held, the pointer over pixel (480,10). -/
def spaceFrame : FrameInput :=
  { keyP := false, keyN := false, keyD := false, keyH := false, mouseX := 480, mouseY := 10,
    keyUp := false, keyDown := false, keySpace := true, keyC := false,
    mouseX1 := 480, mouseY1 := 10 }

/-- The next loop iteration: space still held, the pointer unmoved, ARROWUP pressed. -/
def zoomFrame : FrameInput := { spaceFrame with keyUp := true }

/-- A loop iteration in which space and H are held, the pointer over pixel (480,10). -/
def markersFrame : FrameInput := { spaceFrame with keyH := true }

/-- A loop iteration in which only space is held, the pointer over pixel (488,26) when the
space handler polls it. -/
def movedFrame : FrameInput := { spaceFrame with mouseX1 := 488, mouseY1 := 26 }

/-- A loop iteration in which space, D and ARROWUP are held, the pointer over pixel (480,10). -/
def panZoomFrame : FrameInput := { spaceFrame with keyD := true, keyUp := true }

/-- The session `s` after the iteration `spaceFrame` has engaged the control point of the
template curve: snapshot taken, pointer recorded, control flag set. -/
def engaged (s : Session) : Session :=
  { s with
    isDraggingScreen := false, initialMouseX := -1, initialMouseY := -1,
    controlPoints := templateCurve.controlPoints, anchorPoints := templateCurve.anchorPoints,
    prevMouseX := 480, prevMouseY := 10,
    isDraggingControlPoint := true, isDraggingAnchorPoint := false }

/-- The session `s` after the ARROWUP handler has returned with sample buffer `out`. -/
def zoomed (s : Session) (out : List Point) : Session :=
  { s with
    displayScale := roundDouble (s.displayScale * doubleOnePointOne),
    num_points := (truncInt (roundDouble ((s.num_points : ℚ) * doubleOnePointOne))).toNat,
    curvePoints := out }

/-- The `double` nearest to 0.7. -/
def pointSeven : ℚ := 3152519739159347 / 4503599627370496

/-- The `double` nearest to -0.1. -/
def minusPointOne : ℚ := -3602879701896397 / 36028797018963968

/-- The straight line (order 1) from (0.7, 0.7) to (-0.1, -0.1). -/
def slantLine : Curve :=
  ⟨[], [⟨pointSeven, pointSeven⟩, ⟨minusPointOne, minusPointOne⟩], 1⟩

/-! ## Lemmas on the evaluator -/

theorem bernsteinSum_zero (t : ℚ) (f : Nat → ℚ) : bernsteinSum 0 t f = f 0 := by
  simp [bernsteinSum]

/-- Pascal step: the order `k + 1` Bernstein sum is the interpolation of two order `k` sums. -/
theorem bernsteinSum_succ (k : Nat) (t : ℚ) (f : Nat → ℚ) :
    bernsteinSum (k + 1) t f
      = bernsteinSum k t f + t * (bernsteinSum k t (fun i => f (i + 1)) - bernsteinSum k t f) := by
  have h1 : bernsteinSum (k + 1) t f
      = (∑ i in Finset.range (k + 1), (k.choose i : ℚ) * (1 - t) ^ (k - i) * t ^ (i + 1) * f (i + 1))
        + (∑ i in Finset.range (k + 1),
            (k.choose (i + 1) : ℚ) * (1 - t) ^ (k - i) * t ^ (i + 1) * f (i + 1))
        + (1 - t) ^ (k + 1) * f 0 := by
    unfold bernsteinSum
    rw [Finset.sum_range_succ', ← Finset.sum_add_distrib]
    congr 1
    · apply Finset.sum_congr rfl
      intro i _
      rw [Nat.choose_succ_succ, Nat.add_sub_add_right]
      push_cast
      ring
    · simp
  have h2 : (1 - t) * bernsteinSum k t f
      = (∑ i in Finset.range (k + 1),
            (k.choose (i + 1) : ℚ) * (1 - t) ^ (k - i) * t ^ (i + 1) * f (i + 1))
        + (1 - t) ^ (k + 1) * f 0 := by
    unfold bernsteinSum
    rw [Finset.mul_sum, Finset.sum_range_succ', Finset.sum_range_succ]
    have hz : (k.choose (k + 1) : ℚ) = 0 := by
      rw [Nat.choose_succ_self]; simp
    rw [hz]
    simp only [zero_mul, add_zero]
    congr 1
    · apply Finset.sum_congr rfl
      intro i hi
      have hik : i < k := Finset.mem_range.mp hi
      have he : k - i = (k - (i + 1)) + 1 := by omega
      rw [he, pow_succ]
      ring
    · simp [pow_succ]; ring
  have h3 : t * bernsteinSum k t (fun i => f (i + 1))
      = ∑ i in Finset.range (k + 1), (k.choose i : ℚ) * (1 - t) ^ (k - i) * t ^ (i + 1) * f (i + 1) := by
    unfold bernsteinSum
    rw [Finset.mul_sum]
    apply Finset.sum_congr rfl
    intro i _
    rw [pow_succ]
    ring
  calc bernsteinSum (k + 1) t f
      = t * bernsteinSum k t (fun i => f (i + 1)) + (1 - t) * bernsteinSum k t f := by
        rw [h1, h2, h3]; ring
    _ = _ := by ring

theorem bernsteinSum_congr (n : Nat) (t : ℚ) (f g : Nat → ℚ) (h : ∀ i, i ≤ n → f i = g i) :
    bernsteinSum n t f = bernsteinSum n t g := by
  unfold bernsteinSum
  apply Finset.sum_congr rfl
  intro i hi
  rw [h i (by have := Finset.mem_range.mp hi; omega)]

theorem bezierRound_length (junk : Junk) (order : Nat) (t : ℚ) (temp : List Point) :
    (bezierRound junk order t temp).length = order := by
  simp [bezierRound]

theorem vecRead_of_lt (junk : Junk) (v : List Point) (i : Nat) (h : i < v.length) :
    vecRead junk v i = v.get ⟨i, h⟩ := by
  simp [vecRead, h]

theorem vecRead_bezierRound (junk : Junk) (order : Nat) (t : ℚ) (temp : List Point) (i : Nat)
    (h : i < order) :
    vecRead junk (bezierRound junk order t temp) i
      = lerp (vecRead junk temp i) (vecRead junk temp (i + 1)) t := by
  have hl : i < (bezierRound junk order t temp).length := by
    rw [bezierRound_length]; exact h
  rw [vecRead_of_lt junk _ i hl]
  simp [bezierRound]

/-- De Casteljau invariant, x coordinate: entry `j` after `k` rounds is the order-`k` Bernstein
combination of the entries `j .. j + k` of the starting vector. -/
theorem rounds_x (junk : Junk) (order : Nat) (t : ℚ) :
    ∀ (k : Nat) (temp : List Point) (j : Nat), j + k ≤ order →
      (vecRead junk (bezierRounds junk order t k temp) j).x
        = bernsteinSum k t (fun i => (vecRead junk temp (j + i)).x) := by
  intro k
  induction k with
  | zero =>
    intro temp j _
    simp [bezierRounds, bernsteinSum_zero]
  | succ k ih =>
    intro temp j hj
    rw [bezierRounds, ih (bezierRound junk order t temp) j (by omega), bernsteinSum_succ]
    have e1 : bernsteinSum k t (fun i => (vecRead junk (bezierRound junk order t temp) (j + i)).x)
        = bernsteinSum k t (fun i => (vecRead junk temp (j + i)).x
            + t * ((vecRead junk temp (j + (i + 1))).x - (vecRead junk temp (j + i)).x)) := by
      apply bernsteinSum_congr
      intro i hi
      rw [vecRead_bezierRound junk order t temp (j + i) (by omega)]
      simp [lerp, Nat.add_assoc]
    rw [e1]
    simp only [bernsteinSum]
    rw [← Finset.sum_sub_distrib, Finset.mul_sum, ← Finset.sum_add_distrib]
    apply Finset.sum_congr rfl
    intro i _
    ring

/-- De Casteljau invariant, y coordinate. -/
theorem rounds_y (junk : Junk) (order : Nat) (t : ℚ) :
    ∀ (k : Nat) (temp : List Point) (j : Nat), j + k ≤ order →
      (vecRead junk (bezierRounds junk order t k temp) j).y
        = bernsteinSum k t (fun i => (vecRead junk temp (j + i)).y) := by
  intro k
  induction k with
  | zero =>
    intro temp j _
    simp [bezierRounds, bernsteinSum_zero]
  | succ k ih =>
    intro temp j hj
    rw [bezierRounds, ih (bezierRound junk order t temp) j (by omega), bernsteinSum_succ]
    have e1 : bernsteinSum k t (fun i => (vecRead junk (bezierRound junk order t temp) (j + i)).y)
        = bernsteinSum k t (fun i => (vecRead junk temp (j + i)).y
            + t * ((vecRead junk temp (j + (i + 1))).y - (vecRead junk temp (j + i)).y)) := by
      apply bernsteinSum_congr
      intro i hi
      rw [vecRead_bezierRound junk order t temp (j + i) (by omega)]
      simp [lerp, Nat.add_assoc]
    rw [e1]
    simp only [bernsteinSum]
    rw [← Finset.sum_sub_distrib, Finset.mul_sum, ← Finset.sum_add_distrib]
    apply Finset.sum_congr rfl
    intro i _
    ring

theorem map_vecRead_range (junk : Junk) (l : List Point) :
    (List.range l.length).map (fun i => vecRead junk l i) = l := by
  apply List.ext_get
  · simp
  · intro i h1 h2
    simp [vecRead, h2]

/-- On a valid curve the initial working vector is the control polygon. -/
theorem initTemp_eq_polygon (junk : Junk) (c : Curve) (hv : ValidCurve c) :
    initTemp junk c = polygon c := by
  obtain ⟨_, h2, h3⟩ := hv
  have hn : (c.order - 1).toNat = c.controlPoints.length := by omega
  match ha : c.anchorPoints, h3 with
  | [a0, a1], _ =>
    have hm := map_vecRead_range junk c.controlPoints
    have r0 : vecRead junk [a0, a1] 0 = a0 := by simp [vecRead]
    have r1 : vecRead junk [a0, a1] 1 = a1 := by simp [vecRead]
    simp only [initTemp, polygon, ha, hn, hm, r0, r1]
    simp

theorem polygon_length (c : Curve) (hv : ValidCurve c) :
    (polygon c).length = c.controlPoints.length + 2 := by
  obtain ⟨_, _, h3⟩ := hv
  match ha : c.anchorPoints, h3 with
  | [a0, a1], _ => simp [polygon, ha]

theorem vecRead_eq_getD (junk : Junk) (v : List Point) (i : Nat) (d : Point) (h : i < v.length) :
    vecRead junk v i = v.getD i d := by
  rw [vecRead_of_lt junk v i h, List.getD_eq_getElem v d h]
  rfl

/-- The value of `bezier` on a valid curve is the Bernstein point, whatever stale reads yield. -/
theorem bezier_valid (junk : Junk) (c : Curve) (t : ℚ) (hv : ValidCurve c) :
    bezier junk c t = bernsteinPoint c t := by
  have hv0 := hv
  obtain ⟨h1, h2, _⟩ := hv
  have hg : bezierInvalidOrder c = false := by
    simp [bezierInvalidOrder]; omega
  have hn : c.order.toNat = c.controlPoints.length + 1 := by omega
  have hlen := polygon_length c hv0
  simp only [bezier, hg, Bool.false_eq_true, if_false, hn]
  rw [rounds_x junk _ t _ _ 0 (by omega), rounds_y junk _ t _ _ 0 (by omega),
    initTemp_eq_polygon junk c hv0]
  unfold bernsteinPoint
  congr 1
  · apply bernsteinSum_congr
    intro i hi
    rw [Nat.zero_add, vecRead_eq_getD junk _ i defaultPoint (by omega)]
  · apply bernsteinSum_congr
    intro i hi
    rw [Nat.zero_add, vecRead_eq_getD junk _ i defaultPoint (by omega)]

theorem bernsteinSum_at_zero (k : Nat) (f : Nat → ℚ) : bernsteinSum k 0 f = f 0 := by
  induction k with
  | zero => exact bernsteinSum_zero 0 f
  | succ k ih => rw [bernsteinSum_succ, ih]; ring

theorem bernsteinSum_at_one (k : Nat) : ∀ f : Nat → ℚ, bernsteinSum k 1 f = f k := by
  induction k with
  | zero => intro f; exact bernsteinSum_zero 1 f
  | succ k ih =>
    intro f
    rw [bernsteinSum_succ, ih f, ih (fun i => f (i + 1))]
    ring

theorem bezier_invalid (junk : Junk) (c : Curve) (t : ℚ) (h : bezierInvalidOrder c = true) :
    bezier junk c t = defaultPoint := by
  simp [bezier, h]

theorem bezierInvalidOrder_iff (c : Curve) :
    bezierInvalidOrder c = true ↔ (c.order < 1 ∨ c.order ≠ (c.controlPoints.length : Int) + 1) := by
  simp [bezierInvalidOrder]

/-! ## Claims on the evaluator -/

/-- In exact arithmetic `bezier(curve, 0)` is `anchorPoints[0]` and `bezier(curve, 1)` is
`anchorPoints[1]` on a valid curve. -/
theorem bezier_endpoints_exact (junk : Junk) (c : Curve) (hv : ValidCurve c) :
    some (bezier junk c 0) = c.anchorPoints.get? 0
      ∧ some (bezier junk c 1) = c.anchorPoints.get? 1 := by
  have hlen := polygon_length c hv
  rw [bezier_valid junk c 0 hv, bezier_valid junk c 1 hv]
  obtain ⟨_, _, h3⟩ := hv
  match ha : c.anchorPoints, h3 with
  | [a0, a1], _ =>
    simp only [bernsteinPoint, bernsteinSum_at_zero, bernsteinSum_at_one]
    constructor
    · simp [polygon, ha]
    · have e : (polygon c).getD (c.controlPoints.length.succ) defaultPoint = a1 := by
        simp [polygon, ha, List.getD_append_right]
      rw [e]
      simp

/-- C3: `bezier` returns the sentinel `Point()` and reports "Invalid order" exactly when
`order < 1` or `order != controlPoints.size() + 1`; on such a curve, whatever its point lists
hold, it evaluates no vector subscript at all; on a curve that passes the check nothing is
reported. -/
theorem C3_bezier_invalid_order (junk : Junk) (c : Curve) (t : ℚ) :
    ((bezier junk c t = defaultPoint ∧ bezierInvalidOrder c = true)
        ↔ (c.order < 1 ∨ c.order ≠ (c.controlPoints.length : Int) + 1))
      ∧ ((c.order < 1 ∨ c.order ≠ (c.controlPoints.length : Int) + 1) →
          bezierAccesses junk c t = [])
      ∧ (¬ (c.order < 1 ∨ c.order ≠ (c.controlPoints.length : Int) + 1) →
          bezierInvalidOrder c = false) := by
  refine ⟨⟨fun h => (bezierInvalidOrder_iff c).mp h.2, fun h => ?_⟩, fun h => ?_, fun h => ?_⟩
  · have hi := (bezierInvalidOrder_iff c).mpr h
    exact ⟨bezier_invalid junk c t hi, hi⟩
  · have hi := (bezierInvalidOrder_iff c).mpr h
    simp [bezierAccesses, hi]
  · cases hb : bezierInvalidOrder c
    · rfl
    · exact absurd ((bezierInvalidOrder_iff c).mp hb) h

/-! ## Lemmas on the sampler -/

theorem vecWrite_of_lt (v : List Point) (i : Nat) (p : Point) (h : i < v.length) :
    vecWrite v i p = some (v.set i p) := by
  simp [vecWrite, h]

/-- Effect of the inner loop: it succeeds when the slice fits, keeps the length, writes the
samples `i .. i + r - 1` of curve `c` and leaves every other entry alone. -/
theorem sampleLoop_spec (junk : Junk) (cv : Curve) (c N : Nat) (dt : ℚ) :
    ∀ (r i : Nat) (buf : List Point), i + r + c * N ≤ buf.length →
      ∃ out, sampleLoop junk cv c N dt r i buf = some out ∧ out.length = buf.length ∧
        ∀ j, out[j]? = if c * N + i ≤ j ∧ j < c * N + i + r
                        then some (bezier junk cv (((j - c * N : Nat) : ℚ) * dt))
                        else buf[j]? := by
  generalize hb : c * N = base
  intro r
  induction r with
  | zero =>
    intro i buf _
    refine ⟨buf, by simp [sampleLoop], rfl, ?_⟩
    intro j
    have : ¬ (base + i ≤ j ∧ j < base + i + 0) := by omega
    rw [if_neg this]
  | succ r ih =>
    intro i buf hlen
    have hw : i + base < buf.length := by omega
    obtain ⟨out, ho, hl, hj⟩ :=
      ih (i + 1) (buf.set (i + base) (bezier junk cv ((i : ℚ) * dt))) (by simp; omega)
    refine ⟨out, ?_, ?_, ?_⟩
    · simp only [sampleLoop, hb, vecWrite_of_lt _ _ _ hw, Option.bind_eq_bind, Option.some_bind]
      simpa [hb] using ho
    · simpa using hl
    · intro j
      rw [hj j]
      by_cases h1 : base + (i + 1) ≤ j ∧ j < base + (i + 1) + r
      · have h2 : base + i ≤ j ∧ j < base + i + (r + 1) := by omega
        rw [if_pos h1, if_pos h2]
      · by_cases h3 : j = i + base
        · subst h3
          have h2 : base + i ≤ i + base ∧ i + base < base + i + (r + 1) := by omega
          rw [if_neg h1, if_pos h2]
          simp [List.getElem?_set, hw]
        · have h2 : ¬ (base + i ≤ j ∧ j < base + i + (r + 1)) := by omega
          have h4 : ¬ (i + base = j) := fun h => h3 h.symm
          rw [if_neg h1, if_neg h2]
          simp [List.getElem?_set, h4]

/-- Effect of the outer loop: it succeeds when all slices fit, keeps the length, leaves the
entries below `c * N` alone and fills slice `c + k` with the samples of the `k`-th curve. -/
theorem curveLoop_spec (junk : Junk) (N : Nat) (dt : ℚ) :
    ∀ (rest : List Curve) (c : Nat) (buf : List Point), (c + rest.length) * N ≤ buf.length →
      ∃ out, curveLoop junk N dt rest c buf = some out ∧ out.length = buf.length ∧
        (∀ j, j < c * N → out[j]? = buf[j]?) ∧
        (∀ k i, k < rest.length → i < N →
          out[(c + k) * N + i]? = rest[k]?.map (fun cv => bezier junk cv ((i : ℚ) * dt))) := by
  intro rest
  induction rest with
  | nil =>
    intro c buf _
    exact ⟨buf, by simp [curveLoop], rfl, fun _ _ => rfl, fun k i hk _ => by simp at hk⟩
  | cons cv rest ih =>
    intro c buf hlen
    have e1 : (c + (cv :: rest).length) * N = c * N + N + rest.length * N := by
      simp only [List.length_cons]; ring
    have e2 : (c + 1 + rest.length) * N = c * N + N + rest.length * N := by ring
    have e3 : (c + 1) * N = c * N + N := by ring
    obtain ⟨buf1, hs, hl1, hj1⟩ := sampleLoop_spec junk cv c N dt N 0 buf (by omega)
    obtain ⟨out, ho, hl, hlow, hhigh⟩ := ih (c + 1) buf1 (by omega)
    refine ⟨out, ?_, by omega, ?_, ?_⟩
    · simp only [curveLoop, hs, Option.bind_eq_bind, Option.some_bind]
      exact ho
    · intro j hj
      rw [hlow j (by omega), hj1 j]
      have : ¬ (c * N + 0 ≤ j ∧ j < c * N + 0 + N) := by omega
      rw [if_neg this]
    · intro k i hk hi
      cases k with
      | zero =>
        rw [Nat.add_zero, hlow _ (by omega), hj1]
        have : c * N + 0 ≤ c * N + i ∧ c * N + i < c * N + 0 + N := by omega
        rw [if_pos this]
        simp
      | succ k =>
        have hk1 : k < rest.length := by simpa using hk
        have e4 : (c + (k + 1)) * N + i = (c + 1 + k) * N + i := by ring
        rw [e4, hhigh k i hk1 hi]
        simp

/-- Effect of `calculatePoints` on a buffer with room for `N` samples per curve. -/
theorem calculatePoints_spec (junk : Junk) (cs : List Curve) (N : Nat) (buf : List Point)
    (hlen : N * cs.length ≤ buf.length) :
    ∃ out, calculatePoints junk cs N buf = some out ∧ out.length = buf.length ∧
      ∀ k i, k < cs.length → i < N →
        out[k * N + i]? = cs[k]?.map (fun cv => bezier junk cv ((i : ℚ) / (N : ℚ))) := by
  obtain ⟨out, ho, hl, _, hh⟩ :=
    curveLoop_spec junk N ((1 : ℚ) / (N : ℚ)) cs 0 buf (by rw [Nat.zero_add, Nat.mul_comm]; exact hlen)
  refine ⟨out, ho, hl, ?_⟩
  intro k i hk hi
  have := hh k i hk hi
  rw [Nat.zero_add] at this
  rw [this]
  congr 1
  funext cv
  congr 1
  ring

/-! ## Claims on the sampler -/

theorem indexLoop_first (test : Point → Bool) :
    ∀ (cands : List Point) (k : Nat) (old : Int) (i : Nat) (p : Point),
      cands[i]? = some p → test p = true →
      (∀ j, j < i → ∀ q, cands[j]? = some q → test q = false) →
      indexLoop test cands k old = ((k + i : Nat) : Int) := by
  intro cands
  induction cands with
  | nil => intro k old i p h; simp at h
  | cons a rest ih =>
    intro k old i p hp ht hlow
    cases i with
    | zero =>
      have : a = p := by simpa using hp
      subst this
      simp [indexLoop, ht]
    | succ i =>
      have ha : test a = false := hlow 0 (by omega) a (by simp)
      have hp1 : rest[i]? = some p := by simpa using hp
      have := ih (k + 1) old i p hp1 ht
        (fun j hj q hq => hlow (j + 1) (by omega) q (by simpa using hq))
      simp only [indexLoop, ha, Bool.false_eq_true, if_false, this]
      congr 1
      omega

theorem indexLoop_none (test : Point → Bool) :
    ∀ (cands : List Point) (k : Nat) (old : Int),
      (∀ p, p ∈ cands → test p = false) → indexLoop test cands k old = old := by
  intro cands
  induction cands with
  | nil => intro k old _; rfl
  | cons a rest ih =>
    intro k old h
    have ha : test a = false := h a (by simp)
    simp only [indexLoop, ha, Bool.false_eq_true, if_false]
    exact ih (k + 1) old (fun p hp => h p (by simp [hp]))

theorem flagLoop_of_hit (test : Point → Bool) :
    ∀ (cands : List Point) (flag : Bool) (p : Point),
      p ∈ cands → test p = true → flagLoop test cands flag = true := by
  intro cands
  induction cands with
  | nil => intro flag p h; simp at h
  | cons a rest ih =>
    intro flag p hp ht
    by_cases ha : test a = true
    · simp [flagLoop, ha]
    · rcases List.mem_cons.mp hp with h | h
      · subst h; exact absurd ht ha
      · simp only [flagLoop, ha, if_false]
        exact ih flag p h ht

theorem flagLoop_none (test : Point → Bool) :
    ∀ (cands : List Point) (flag : Bool),
      (∀ p, p ∈ cands → test p = false) → flagLoop test cands flag = flag := by
  intro cands
  induction cands with
  | nil => intro flag _; rfl
  | cons a rest ih =>
    intro flag h
    have ha : test a = false := h a (by simp)
    simp only [flagLoop, ha, Bool.false_eq_true, if_false]
    exact ih flag (fun p hp => h p (by simp [hp]))

/-! ## Claims on picking -/

/-- C5 (as stated, refuted): "the picking loop returns none when no candidate qualifies" fails
for the re-pick loop of a drag tick.  With the index variable holding 1 from an earlier tick and
a single candidate that projects to pixel (200,100), out of tolerance of the pointer (101,101),
the loop ends with index 1, not with the no-index value -1. -/
theorem C5_repick_keeps_stale_index :
    ¬ (∀ (displayScale offX offY : ℚ) (px py : Int) (cands : List Point) (old : Int),
        (∀ p, p ∈ cands → hit displayScale offX offY px py p = false) →
          indexLoop (hit displayScale offX offY px py) cands 0 old = -1) := by
  intro h
  have h1 := h 1 0 0 101 101 [⟨200, 980⟩] 1 (by decide!)
  have h2 : indexLoop (hit 1 0 0 101 101) [⟨200, 980⟩] 0 1 = 1 := by decide!
  rw [h2] at h1
  exact absurd h1 (by decide)

/-- C5 (amended): the test of the picking loops is the square tolerance
`|px - sx| <= 5 and |py - sy| <= 5` on the pixel position `(sx, sy)` of the candidate; when a
candidate passes it, the re-pick loop leaves the lowest passing index in the index variable and
the activation loop sets the engagement flag; when no candidate passes it, the activation loop
leaves the flag unset. -/
theorem C5_pick_first_match (displayScale offX offY : ℚ) (px py : Int) (cands : List Point)
    (old : Int) (flag : Bool) :
    (∀ p, hit displayScale offX offY px py p = true
        ↔ (|px - toScreenX displayScale offX p| ≤ 5 ∧ |py - toScreenY displayScale offY p| ≤ 5))
      ∧ (∀ (i : Nat) (p : Point), cands[i]? = some p → hit displayScale offX offY px py p = true →
          (∀ j : Nat, j < i → ∀ q, cands[j]? = some q → hit displayScale offX offY px py q = false) →
          indexLoop (hit displayScale offX offY px py) cands 0 old = (i : Int)
            ∧ flagLoop (hit displayScale offX offY px py) cands flag = true)
      ∧ ((∀ p, p ∈ cands → hit displayScale offX offY px py p = false) →
          flagLoop (hit displayScale offX offY px py) cands false = false) := by
  refine ⟨fun p => by simp [hit], fun i p hp ht hlow => ⟨?_, ?_⟩, fun h => ?_⟩
  · have := indexLoop_first _ cands 0 old i p hp ht hlow
    rw [this, Nat.zero_add]
  · exact flagLoop_of_hit _ cands flag p (List.getElem?_mem hp) ht
  · exact flagLoop_none _ cands false h

/-- Witness of C5: candidates at pixels (100,100) and (103,102), pointer at (101,101): both pass
the test and the loop yields index 0. -/
theorem C5_pick_first_match_witness :
    toScreenX 1 0 ⟨100, 980⟩ = 100 ∧ toScreenY 1 0 ⟨100, 980⟩ = 100
      ∧ toScreenX 1 0 ⟨103, 978⟩ = 103 ∧ toScreenY 1 0 ⟨103, 978⟩ = 102
      ∧ hit 1 0 0 101 101 ⟨103, 978⟩ = true
      ∧ indexLoop (hit 1 0 0 101 101) [⟨100, 980⟩, ⟨103, 978⟩] 0 (-1) = ((0 : Nat) : Int)
      ∧ flagLoop (hit 1 0 0 101 101) [⟨100, 980⟩, ⟨103, 978⟩] false = true :=
  ⟨by decide!, by decide!, by decide!, by decide!, by decide!,
   (C5_pick_first_match 1 0 0 101 101 [⟨100, 980⟩, ⟨103, 978⟩] (-1) false).2.1 0 ⟨100, 980⟩
     rfl (by decide!) (fun j hj => absurd hj (by omega))⟩

/-! ## Lemmas on the handlers -/

theorem vecResize_length (v : List Point) (n : Nat) : (vecResize v n).length = n := by
  simp [vecResize]
  omega

theorem modifyLast_eq (f : Curve → Option Curve) (curves : List Curve) (last c1 : Curve)
    (hlast : curves.getLast? = some last) (hf : f last = some c1) :
    modifyLast f curves = some (curves.dropLast ++ [c1]) := by
  simp [modifyLast, hlast, hf]

theorem modifyLast_some (f : Curve → Option Curve) (curves curves1 : List Curve)
    (h : modifyLast f curves = some curves1) :
    ∃ last c1, curves.getLast? = some last ∧ f last = some c1
      ∧ curves1 = curves.dropLast ++ [c1] := by
  unfold modifyLast at h
  cases hl : curves.getLast? with
  | none => simp [hl] at h
  | some last =>
    simp only [hl] at h
    cases hf : f last with
    | none => simp [hf] at h
    | some c1 =>
      simp only [hf, Option.map_some', Option.some.injEq] at h
      exact ⟨last, c1, rfl, hf, h.symm⟩

theorem length_dropLast_concat (curves : List Curve) (last c1 : Curve)
    (hlast : curves.getLast? = some last) :
    (curves.dropLast ++ [c1]).length = curves.length := by
  have hne : curves ≠ [] := by
    intro h; simp [h] at hlast
  have := List.length_pos.mpr hne
  simp
  omega

/-- Entries below the last one are untouched by a replacement of the last curve. -/
theorem getElem?_dropLast_concat (curves : List Curve) (c1 : Curve) (i : Nat)
    (hi : i + 1 < curves.length) :
    (curves.dropLast ++ [c1])[i]? = curves[i]? := by
  have h1 : i < curves.dropLast.length := by simp; omega
  rw [List.getElem?_append_left h1, List.getElem?_dropLast]
  have : i < curves.length - 1 := by omega
  simp [this]

theorem movePoint_some (pts : List Point) (index : Int) (dx dy : Int) (scale : ℚ) (q : Point)
    (h0 : 0 ≤ index) (hq : pts[index.toNat]? = some q) :
    movePoint pts index dx dy scale
      = some (pts.set index.toNat ⟨q.x + (dx : ℚ) / scale, q.y - (dy : ℚ) / scale⟩) := by
  simp [movePoint, h0, hq]

theorem movePoint_length (pts pts1 : List Point) (index : Int) (dx dy : Int) (scale : ℚ)
    (h : movePoint pts index dx dy scale = some pts1) : pts1.length = pts.length := by
  unfold movePoint at h
  split at h
  · split at h
    · simp at h
    · simp only [Option.some.injEq] at h
      rw [← h]; simp
  · simp at h

/-! ## Claims on the editing handlers -/

/-- C6: the key N handler rejects the intent, leaving the whole session (curve set and sample
buffer included) unchanged, when the last curve has the control and anchor points of the
template; in every other case (empty curve set, or a last curve whose points differ) it returns
with the template curve `{[(0,1)], [(0,0),(1,1)], 2}` appended as the new last curve. -/
theorem C6_addCurve (junk : Junk) (s : Session) :
    ((∃ last, s.curves.getLast? = some last ∧ last.controlPoints = [⟨0, 1⟩]
          ∧ last.anchorPoints = [⟨0, 0⟩, ⟨1, 1⟩]) →
        keyN junk s = some s)
      ∧ (¬ (∃ last, s.curves.getLast? = some last ∧ last.controlPoints = [⟨0, 1⟩]
          ∧ last.anchorPoints = [⟨0, 0⟩, ⟨1, 1⟩]) →
        ∃ s1, keyN junk s = some s1
          ∧ s1.curves = s.curves ++ [⟨[⟨0, 1⟩], [⟨0, 0⟩, ⟨1, 1⟩], 2⟩]
          ∧ s1.curves.getLast? = some ⟨[⟨0, 1⟩], [⟨0, 0⟩, ⟨1, 1⟩], 2⟩
          ∧ s1.curvePoints.length = s.num_points * (s.curves.length + 1)) := by
  have hpush : ∃ s1, pushTemplate junk s = some s1
      ∧ s1.curves = s.curves ++ [⟨[⟨0, 1⟩], [⟨0, 0⟩, ⟨1, 1⟩], 2⟩]
      ∧ s1.curves.getLast? = some ⟨[⟨0, 1⟩], [⟨0, 0⟩, ⟨1, 1⟩], 2⟩
      ∧ s1.curvePoints.length = s.num_points * (s.curves.length + 1) := by
    obtain ⟨out, ho, hl, _⟩ := calculatePoints_spec junk (s.curves ++ [templateCurve]) s.num_points
      (vecResize s.curvePoints (s.num_points * (s.curves ++ [templateCurve]).length))
      (by rw [vecResize_length])
    refine ⟨{ s with curves := s.curves ++ [templateCurve], curvePoints := out }, ?_, rfl, ?_, ?_⟩
    · simp only [pushTemplate, ho, Option.map_some']
    · show (s.curves ++ [templateCurve]).getLast? = _
      rw [List.getLast?_concat]; rfl
    · show out.length = _
      rw [hl, vecResize_length]; simp
  constructor
  · rintro ⟨last, hl, hc, ha⟩
    simp [keyN, hl, hc, ha, templateCurve]
  · intro hno
    cases hl : s.curves.getLast? with
    | none => simpa [keyN, hl] using hpush
    | some last =>
      have hne : ¬ (last.controlPoints = templateCurve.controlPoints
          ∧ last.anchorPoints = templateCurve.anchorPoints) := by
        intro h
        exact hno ⟨last, hl, h.1, h.2⟩
      simpa [keyN, hl, hne] using hpush

/-- Witness of C6: on the small session the intent is rejected; after Clear it is accepted. -/
theorem C6_addCurve_witness :
    keyN sevenJunk demoSession = some demoSession
      ∧ ∃ s1, keyN sevenJunk (keyC demoSession) = some s1
          ∧ s1.curves = (keyC demoSession).curves ++ [⟨[⟨0, 1⟩], [⟨0, 0⟩, ⟨1, 1⟩], 2⟩]
          ∧ s1.curves.getLast? = some ⟨[⟨0, 1⟩], [⟨0, 0⟩, ⟨1, 1⟩], 2⟩
          ∧ s1.curvePoints.length
              = (keyC demoSession).num_points * ((keyC demoSession).curves.length + 1) :=
  ⟨(C6_addCurve sevenJunk demoSession).1 ⟨templateCurve, rfl, rfl, rfl⟩,
   (C6_addCurve sevenJunk (keyC demoSession)).2 (by rintro ⟨last, h, _⟩; simp [keyC] at h)⟩

/-- Effect of a drag tick that moves a control point of the last curve. -/
theorem dragTick_control (junk : Junk) (mx my : Int) (s : Session) (last : Curve) (q : Point)
    (index : Int) (hflag : s.isDraggingControlPoint = true)
    (hbuf : s.num_points * s.curves.length ≤ s.curvePoints.length)
    (hlast : s.curves.getLast? = some last)
    (hidx : index = indexLoop
      (hit s.displayScale s.displayOffsetX s.displayOffsetY s.prevMouseX s.prevMouseY)
      s.controlPoints 0 s.controlPointIndex)
    (h0 : 0 ≤ index) (hq : last.controlPoints[index.toNat]? = some q) :
    ∃ s1, dragTick junk mx my s = some s1
      ∧ s1.curves = s.curves.dropLast ++ [
          ⟨last.controlPoints.set index.toNat 
            ⟨q.x + ((mx - s.prevMouseX : Int) : ℚ) / s.displayScale,
              q.y - ((my - s.prevMouseY : Int) : ℚ) / s.displayScale⟩, last.anchorPoints, last.order⟩] := by
  have hm := movePoint_some last.controlPoints index (mx - s.prevMouseX) (my - s.prevMouseY)
    s.displayScale q h0 hq
  have hml : modifyLast
      (fun c => (movePoint c.controlPoints index (mx - s.prevMouseX) (my - s.prevMouseY)
        s.displayScale).map fun pts => { c with controlPoints := pts }) s.curves
      = some (s.curves.dropLast ++ [
          ⟨last.controlPoints.set index.toNat 
            ⟨q.x + ((mx - s.prevMouseX : Int) : ℚ) / s.displayScale,
              q.y - ((my - s.prevMouseY : Int) : ℚ) / s.displayScale⟩, last.anchorPoints, last.order⟩]) :=
    modifyLast_eq _ s.curves last _ hlast (by rw [hm]; rfl)
  obtain ⟨out, ho, _, _⟩ := calculatePoints_spec junk
    (s.curves.dropLast ++ [
          ⟨last.controlPoints.set index.toNat 
            ⟨q.x + ((mx - s.prevMouseX : Int) : ℚ) / s.displayScale,
              q.y - ((my - s.prevMouseY : Int) : ℚ) / s.displayScale⟩, last.anchorPoints, last.order⟩])
    s.num_points s.curvePoints
    (by rw [length_dropLast_concat s.curves last _ hlast]; exact hbuf)
  simp only [dragTick, dragUpdate, hflag, if_true, ← hidx, hml, Option.map_some',
    Option.bind_eq_bind, Option.some_bind, ho]
  exact ⟨_, rfl, rfl⟩

/-- Effect of a drag tick that moves an anchor point of the last curve. -/
theorem dragTick_anchor (junk : Junk) (mx my : Int) (s : Session) (last : Curve) (q : Point)
    (index : Int) (hflagC : s.isDraggingControlPoint = false) (hflag : s.isDraggingAnchorPoint = true)
    (hbuf : s.num_points * s.curves.length ≤ s.curvePoints.length)
    (hlast : s.curves.getLast? = some last)
    (hidx : index = indexLoop
      (hit s.displayScale s.displayOffsetX s.displayOffsetY s.prevMouseX s.prevMouseY)
      s.anchorPoints 0 s.anchorPointIndex)
    (h0 : 0 ≤ index) (hq : last.anchorPoints[index.toNat]? = some q) :
    ∃ s1, dragTick junk mx my s = some s1
      ∧ s1.curves = s.curves.dropLast ++ [
          ⟨last.controlPoints, last.anchorPoints.set index.toNat 
            ⟨q.x + ((mx - s.prevMouseX : Int) : ℚ) / s.displayScale,
              q.y - ((my - s.prevMouseY : Int) : ℚ) / s.displayScale⟩, last.order⟩] := by
  have hm := movePoint_some last.anchorPoints index (mx - s.prevMouseX) (my - s.prevMouseY)
    s.displayScale q h0 hq
  have hml : modifyLast
      (fun c => (movePoint c.anchorPoints index (mx - s.prevMouseX) (my - s.prevMouseY)
        s.displayScale).map fun pts => { c with anchorPoints := pts }) s.curves
      = some (s.curves.dropLast ++ [
          ⟨last.controlPoints, last.anchorPoints.set index.toNat 
            ⟨q.x + ((mx - s.prevMouseX : Int) : ℚ) / s.displayScale,
              q.y - ((my - s.prevMouseY : Int) : ℚ) / s.displayScale⟩, last.order⟩]) :=
    modifyLast_eq _ s.curves last _ hlast (by rw [hm]; rfl)
  obtain ⟨out, ho, _, _⟩ := calculatePoints_spec junk
    (s.curves.dropLast ++ [
          ⟨last.controlPoints, last.anchorPoints.set index.toNat 
            ⟨q.x + ((mx - s.prevMouseX : Int) : ℚ) / s.displayScale,
              q.y - ((my - s.prevMouseY : Int) : ℚ) / s.displayScale⟩, last.order⟩])
    s.num_points s.curvePoints
    (by rw [length_dropLast_concat s.curves last _ hlast]; exact hbuf)
  simp only [dragTick, dragUpdate, hflagC, hflag, if_true, Bool.false_eq_true, if_false, ← hidx, hml, Option.map_some',
    Option.bind_eq_bind, Option.some_bind, ho]
  exact ⟨_, rfl, rfl⟩

theorem keySpace_tick (junk : Junk) (mx my : Int) (s : Session)
    (hshow : s.showPoints = true) (hprev : ¬ (s.prevMouseX = -1 ∧ s.prevMouseY = -1)) :
    keySpace junk true mx my s = dragTick junk mx my s := by
  simp only [keySpace, hshow, Bool.and_self, if_true, hprev, if_false]

/-- C7: on a drag tick after activation (space held, markers visible, a previous pointer
position recorded) with scale `s != 0`, the point of the last curve at the re-picked index, a
control point when the control flag is set and an anchor point when only the anchor flag is set,
has coordinates `(x + dx / s, y - dy / s)` after the tick, `(dx, dy)` being the pointer delta
since the previous tick. -/
theorem C7_drag_moves_point (junk : Junk) (mx my : Int) (s : Session) (last : Curve) (q : Point)
    (index : Int)
    (hshow : s.showPoints = true) (hprev : ¬ (s.prevMouseX = -1 ∧ s.prevMouseY = -1))
    (hscale : s.displayScale ≠ 0)
    (hbuf : s.num_points * s.curves.length ≤ s.curvePoints.length)
    (hlast : s.curves.getLast? = some last) (h0 : 0 ≤ index) :
    (s.isDraggingControlPoint = true →
        index = indexLoop
          (hit s.displayScale s.displayOffsetX s.displayOffsetY s.prevMouseX s.prevMouseY)
          s.controlPoints 0 s.controlPointIndex →
        last.controlPoints[index.toNat]? = some q →
        ∃ s1 last1, keySpace junk true mx my s = some s1 ∧ s1.curves.getLast? = some last1
          ∧ last1.controlPoints[index.toNat]?
              = some ⟨q.x + ((mx - s.prevMouseX : Int) : ℚ) / s.displayScale,
                      q.y - ((my - s.prevMouseY : Int) : ℚ) / s.displayScale⟩)
      ∧ (s.isDraggingControlPoint = false → s.isDraggingAnchorPoint = true →
        index = indexLoop
          (hit s.displayScale s.displayOffsetX s.displayOffsetY s.prevMouseX s.prevMouseY)
          s.anchorPoints 0 s.anchorPointIndex →
        last.anchorPoints[index.toNat]? = some q →
        ∃ s1 last1, keySpace junk true mx my s = some s1 ∧ s1.curves.getLast? = some last1
          ∧ last1.anchorPoints[index.toNat]?
              = some ⟨q.x + ((mx - s.prevMouseX : Int) : ℚ) / s.displayScale,
                      q.y - ((my - s.prevMouseY : Int) : ℚ) / s.displayScale⟩) := by
  have _ := hscale
  constructor
  · intro hflag hidx hq
    obtain ⟨s1, h1, h2⟩ := dragTick_control junk mx my s last q index hflag hbuf hlast hidx h0 hq
    refine ⟨s1, ⟨last.controlPoints.set index.toNat
        ⟨q.x + ((mx - s.prevMouseX : Int) : ℚ) / s.displayScale,
         q.y - ((my - s.prevMouseY : Int) : ℚ) / s.displayScale⟩,
        last.anchorPoints, last.order⟩, ?_, ?_, ?_⟩
    · rw [keySpace_tick junk mx my s hshow hprev]; exact h1
    · rw [h2, List.getLast?_concat]
    · have hlt : index.toNat < last.controlPoints.length :=
        (List.getElem?_eq_some.mp hq).1
      simp [List.getElem?_set, hlt]
  · intro hflagC hflag hidx hq
    obtain ⟨s1, h1, h2⟩ :=
      dragTick_anchor junk mx my s last q index hflagC hflag hbuf hlast hidx h0 hq
    refine ⟨s1, ⟨last.controlPoints, last.anchorPoints.set index.toNat
        ⟨q.x + ((mx - s.prevMouseX : Int) : ℚ) / s.displayScale,
         q.y - ((my - s.prevMouseY : Int) : ℚ) / s.displayScale⟩, last.order⟩, ?_, ?_, ?_⟩
    · rw [keySpace_tick junk mx my s hshow hprev]; exact h1
    · rw [h2, List.getLast?_concat]
    · have hlt : index.toNat < last.anchorPoints.length :=
        (List.getElem?_eq_some.mp hq).1
      simp [List.getElem?_set, hlt]

/-- Witness of C7: dragging the control point (0,1) of the template curve from pixel (480,10) to
(488,26) at scale 800 moves it to (0 + 8/800, 1 - 16/800). -/
theorem C7_drag_moves_point_witness :
    dragSession.showPoints = true
      ∧ ¬ (dragSession.prevMouseX = -1 ∧ dragSession.prevMouseY = -1)
      ∧ dragSession.displayScale ≠ 0
      ∧ dragSession.isDraggingControlPoint = true
      ∧ ∃ s1 last1, keySpace sevenJunk true 488 26 dragSession = some s1
          ∧ s1.curves.getLast? = some last1
          ∧ last1.controlPoints[(0 : Int).toNat]?
              = some ⟨(0 : ℚ) + ((488 - dragSession.prevMouseX : Int) : ℚ) / dragSession.displayScale,
                      (1 : ℚ) - ((26 - dragSession.prevMouseY : Int) : ℚ) / dragSession.displayScale⟩ :=
  ⟨rfl, by decide, by decide!, rfl,
   (C7_drag_moves_point sevenJunk 488 26 dragSession templateCurve ⟨0, 1⟩ 0 rfl (by decide)
      (by decide!) (by decide) rfl (by decide)).1 rfl (by decide!) rfl⟩

/-! ## How each block of the loop body changes the curve set -/

theorem keyP_curves (junk : Junk) (s s1 : Session) (h : keyP junk s = some s1) :
    ∃ last, s.curves.getLast? = some last
      ∧ s1.curves = s.curves.dropLast
          ++ [⟨last.controlPoints ++ [Point.mk 0 0], last.anchorPoints,
              ((last.controlPoints ++ [Point.mk 0 0]).length : Int) + 1⟩] := by
  unfold keyP at h
  cases hl : s.curves.getLast? with
  | none => simp [hl] at h
  | some last =>
    simp only [hl, Option.bind_eq_bind, Option.bind_eq_some, Option.map_eq_some'] at h
    obtain ⟨curves1, hm, pts, _, rfl⟩ := h
    obtain ⟨last1, c1, hl1, hf, rfl⟩ := modifyLast_some _ _ _ hm
    rw [hl] at hl1
    simp only [Option.some.injEq] at hl1 hf
    subst hl1
    subst hf
    exact ⟨last, rfl, rfl⟩

theorem pushTemplate_curves (junk : Junk) (s s1 : Session) (h : pushTemplate junk s = some s1) :
    s1.curves = s.curves ++ [templateCurve] := by
  simp only [pushTemplate, Option.map_eq_some'] at h
  obtain ⟨pts, _, rfl⟩ := h
  rfl

theorem keyN_curves (junk : Junk) (s s1 : Session) (h : keyN junk s = some s1) :
    s1.curves = s.curves ∨ s1.curves = s.curves ++ [templateCurve] := by
  unfold keyN at h
  split at h
  · split at h
    · simp only [Option.some.injEq] at h
      left; rw [← h]
    · right; exact pushTemplate_curves junk s s1 h
  · right; exact pushTemplate_curves junk s s1 h

theorem renderMarkers_curves (s s1 : Session) (h : renderMarkers s = some s1) :
    s1.curves = s.curves := by
  unfold renderMarkers at h
  split at h
  · split at h
    · simp at h
    · simp only [Option.some.injEq] at h
      rw [← h]
  · simp only [Option.some.injEq] at h
    rw [← h]

theorem resample_curves (junk : Junk) (s s1 : Session) (h : resample junk s = some s1) :
    s1.curves = s.curves := by
  simp only [resample, Option.map_eq_some'] at h
  obtain ⟨pts, _, rfl⟩ := h
  rfl

theorem keyArrowUp_curves (junk : Junk) (s s1 : Session) (h : keyArrowUp junk s = some s1) :
    s1.curves = s.curves := by
  unfold keyArrowUp at h
  have := resample_curves junk _ s1 h
  exact this

theorem keyArrowDown_curves (junk : Junk) (s s1 : Session) (h : keyArrowDown junk s = some s1) :
    s1.curves = s.curves := by
  unfold keyArrowDown at h
  have := resample_curves junk _ s1 h
  exact this

theorem dragActivate_curves (mx my : Int) (s s1 : Session) (h : dragActivate mx my s = some s1) :
    s1.curves = s.curves := by
  unfold dragActivate at h
  split at h
  · simp at h
  · simp only [Option.some.injEq] at h
    rw [← h]

/-- A drag update leaves the curve set alone or replaces the last curve by one with the same
order and the same numbers of control and anchor points. -/
theorem dragUpdate_curves (mx my : Int) (s s1 : Session) (h : dragUpdate mx my s = some s1) :
    s1.curves = s.curves
      ∨ ∃ last c1, s.curves.getLast? = some last ∧ s1.curves = s.curves.dropLast ++ [c1]
          ∧ c1.order = last.order ∧ c1.controlPoints.length = last.controlPoints.length
          ∧ c1.anchorPoints.length = last.anchorPoints.length := by
  unfold dragUpdate at h
  simp only at h
  split at h
  · simp only [Option.map_eq_some'] at h
    obtain ⟨curves1, hm, rfl⟩ := h
    obtain ⟨last, c1, hl, hf, rfl⟩ := modifyLast_some _ _ _ hm
    simp only [Option.map_eq_some'] at hf
    obtain ⟨pts, hp, rfl⟩ := hf
    exact Or.inr ⟨last, _, hl, rfl, rfl, movePoint_length _ _ _ _ _ _ hp, rfl⟩
  · split at h
    · simp only [Option.map_eq_some'] at h
      obtain ⟨curves1, hm, rfl⟩ := h
      obtain ⟨last, c1, hl, hf, rfl⟩ := modifyLast_some _ _ _ hm
      simp only [Option.map_eq_some'] at hf
      obtain ⟨pts, hp, rfl⟩ := hf
      exact Or.inr ⟨last, _, hl, rfl, rfl, rfl, movePoint_length _ _ _ _ _ _ hp⟩
    · simp only [Option.some.injEq] at h
      left; rw [← h]

theorem dragTick_curves (junk : Junk) (mx my : Int) (s s1 : Session)
    (h : dragTick junk mx my s = some s1) :
    ∃ s2, dragUpdate mx my s = some s2 ∧ s1.curves = s2.curves := by
  simp only [dragTick, Option.bind_eq_bind, Option.bind_eq_some, Option.map_eq_some'] at h
  obtain ⟨s2, h2, pts, _, rfl⟩ := h
  exact ⟨s2, h2, rfl⟩

theorem keySpace_curves (junk : Junk) (held : Bool) (mx my : Int) (s s1 : Session)
    (h : keySpace junk held mx my s = some s1) :
    s1.curves = s.curves
      ∨ ∃ last c1, s.curves.getLast? = some last ∧ s1.curves = s.curves.dropLast ++ [c1]
          ∧ c1.order = last.order ∧ c1.controlPoints.length = last.controlPoints.length
          ∧ c1.anchorPoints.length = last.anchorPoints.length := by
  unfold keySpace at h
  split at h
  · split at h
    · exact Or.inl (dragActivate_curves mx my s s1 h)
    · obtain ⟨s2, h2, he⟩ := dragTick_curves junk mx my s s1 h
      rw [he]
      exact dragUpdate_curves mx my s s2 h2
  · simp only [Option.some.injEq] at h
    left; rw [← h]

/-- The shape of every step: the curve set is unchanged, emptied (Clear only), extended by the
template, or has its last curve replaced, either by one with the same order and point counts
or by one with a control point more and the order set to the new count plus one. -/
theorem applyIntent_curves (junk : Junk) (a : Intent) (s s1 : Session)
    (h : applyIntent junk a s = some s1) :
    s1.curves = s.curves
      ∨ (a = Intent.clear ∧ s1.curves = [])
      ∨ s1.curves = s.curves ++ [templateCurve]
      ∨ ∃ last c1, a ≠ Intent.addCurve ∧ s.curves.getLast? = some last
          ∧ s1.curves = s.curves.dropLast ++ [c1]
          ∧ ((c1.order = last.order ∧ c1.controlPoints.length = last.controlPoints.length)
              ∨ c1.order = (c1.controlPoints.length : Int) + 1) := by
  cases a with
  | addControlPoint =>
    obtain ⟨last, hl, hc⟩ := keyP_curves junk s s1 h
    exact Or.inr (Or.inr (Or.inr ⟨last, _, by simp, hl, hc, Or.inr rfl⟩))
  | addCurve =>
    rcases keyN_curves junk s s1 h with h1 | h1
    · exact Or.inl h1
    · exact Or.inr (Or.inr (Or.inl h1))
  | pan held mx my =>
    simp only [applyIntent, Option.some.injEq] at h
    left; rw [← h]; unfold keyD; split <;> [split; skip] <;> rfl
  | render => exact Or.inl (renderMarkers_curves s s1 h)
  | toggleMarkers =>
    simp only [applyIntent, Option.some.injEq] at h
    left; rw [← h]; rfl
  | rescaleUp => exact Or.inl (keyArrowUp_curves junk s s1 h)
  | rescaleDown => exact Or.inl (keyArrowDown_curves junk s s1 h)
  | drag held mx my =>
    rcases keySpace_curves junk held mx my s s1 h with h1 | ⟨last, c1, hl, hc, ho, hn, _⟩
    · exact Or.inl h1
    · exact Or.inr (Or.inr (Or.inr ⟨last, c1, by simp, hl, hc, Or.inl ⟨ho, hn⟩⟩))
  | clear =>
    simp only [applyIntent, Option.some.injEq] at h
    right; left; exact ⟨rfl, by rw [← h]; rfl⟩

/-! ## Claims on the session -/

/-- C8 (what the code does): with an empty curve set, as left by the key C handler, the key P
handler, the marker rendering with markers visible, the activation of a drag and a drag tick
with an engagement flag set all evaluate `curves[curves.size() - 1]` and fault; none of them is
a no-op. -/
theorem C8_empty_curve_set_faults (junk : Junk) (s : Session) (mx my : Int) :
    keyP junk (keyC s) = none
      ∧ renderMarkers (keyC { s with showPoints := true }) = none
      ∧ keySpace junk true mx my
          (keyC { s with showPoints := true, prevMouseX := -1, prevMouseY := -1 }) = none
      ∧ keySpace junk true mx my
          (keyC { s with showPoints := true, prevMouseX := 0, prevMouseY := 0,
                         isDraggingControlPoint := true }) = none := by
  refine ⟨?_, ?_, ?_, ?_⟩
  · simp [keyP, keyC]
  · simp [renderMarkers, keyC]
  · simp [keySpace, keyC, dragActivate]
  · simp [keySpace, keyC, dragTick, dragUpdate, modifyLast]

/-- The invariant of C9 is kept by every block that returns. -/
theorem applyIntent_order (junk : Junk) (a : Intent) (s s1 : Session)
    (hinv : ∀ c, c ∈ s.curves → c.order = (c.controlPoints.length : Int) + 1)
    (h : applyIntent junk a s = some s1) :
    ∀ c, c ∈ s1.curves → c.order = (c.controlPoints.length : Int) + 1 := by
  intro c hc
  rcases applyIntent_curves junk a s s1 h with h1 | ⟨_, h1⟩ | h1 | ⟨last, c1, _, hl, h1, hc1⟩
  · rw [h1] at hc; exact hinv c hc
  · rw [h1] at hc; simp at hc
  · rw [h1] at hc
    rcases List.mem_append.mp hc with h2 | h2
    · exact hinv c h2
    · have : c = templateCurve := by simpa using h2
      subst this
      decide
  · rw [h1] at hc
    rcases List.mem_append.mp hc with h2 | h2
    · exact hinv c (List.mem_of_mem_dropLast h2)
    · have : c = c1 := by simpa using h2
      subst this
      rcases hc1 with ⟨ho, hn⟩ | ho
      · rw [ho, hn]
        exact hinv last (List.mem_of_getLast?_eq_some hl)
      · exact ho

theorem applyIntents_order (junk : Junk) :
    ∀ (intents : List Intent) (s s1 : Session),
      (∀ c, c ∈ s.curves → c.order = (c.controlPoints.length : Int) + 1) →
      applyIntents junk intents s = some s1 →
      ∀ c, c ∈ s1.curves → c.order = (c.controlPoints.length : Int) + 1 := by
  intro intents
  induction intents with
  | nil =>
    intro s s1 hinv h
    simp only [applyIntents, Option.some.injEq] at h
    rw [← h]; exact hinv
  | cons a rest ih =>
    intro s s1 hinv h
    simp only [applyIntents, Option.bind_eq_bind, Option.bind_eq_some] at h
    obtain ⟨s2, h2, h3⟩ := h
    exact ih s2 s1 (applyIntent_order junk a s s2 hinv h2) h3

theorem calculatePoints_single (junk : Junk) (cv : Curve) (N : Nat) (buf : List Point)
    (hlen : buf.length = N) :
    calculatePoints junk [cv] N buf
      = some ((List.range N).map fun (i : Nat) => bezier junk cv ((i : ℚ) / (N : ℚ))) := by
  obtain ⟨out, ho, hl, hs⟩ := calculatePoints_spec junk [cv] N buf (by simp; omega)
  rw [ho]
  congr 1
  apply List.ext_getElem?
  intro j
  by_cases hj : j < N
  · have := hs 0 j (by simp) hj
    simp only [Nat.zero_mul, Nat.zero_add] at this
    rw [this, List.getElem?_map, List.getElem?_range hj]
    rfl
  · rw [List.getElem?_eq_none (by omega),
      List.getElem?_eq_none (by rw [List.length_map, List.length_range]; omega)]

/-- The display loop is entered in the state `startSession`. -/
theorem initialSession_eq (junk : Junk) : initialSession junk = some (startSession junk) := by
  unfold initialSession
  rw [calculatePoints_single junk templateCurve 1000 _ (List.length_replicate _ _)]
  rfl

/-- C9: in every state reachable from the initial state by a run of blocks of the loop body
(add control point, add curve, pan, marker rendering, toggle markers, rescale, drag, clear),
every curve of the curve set has `order == controlPoints.size() + 1`. -/
theorem C9_order_invariant (junk : Junk) (s : Session) (h : Reachable junk s) :
    ∀ c, c ∈ s.curves → c.order = (c.controlPoints.length : Int) + 1 := by
  obtain ⟨s0, intents, h0, hrun⟩ := h
  rw [initialSession_eq] at h0
  simp only [Option.some.injEq] at h0
  subst h0
  refine applyIntents_order junk intents _ s ?_ hrun
  intro c hc
  have : c = templateCurve := by simpa [startSession] using hc
  subst this
  decide

theorem applyIntents_append (junk : Junk) :
    ∀ (l1 l2 : List Intent) (s : Session),
      applyIntents junk (l1 ++ l2) s = (applyIntents junk l1 s).bind (applyIntents junk l2) := by
  intro l1
  induction l1 with
  | nil => intro l2 s; rfl
  | cons a rest ih =>
    intro l2 s
    simp only [List.cons_append, applyIntents, Option.bind_eq_bind]
    cases applyIntent junk a s with
    | none => rfl
    | some s2 => simpa using ih l2 s2

/-- An iteration of the display loop that returns leads from a reachable state to a reachable
state. -/
theorem reachable_frame (junk : Junk) (inp : FrameInput) (s s1 : Session)
    (hr : Reachable junk s) (h : frame junk inp s = some s1) : Reachable junk s1 := by
  obtain ⟨s0, intents, h0, hrun⟩ := hr
  refine ⟨s0, intents ++ frameIntents inp, h0, ?_⟩
  rw [applyIntents_append, hrun]
  exact h

theorem keyP_of_single (junk : Junk) (s : Session) (c : Curve) (hc : s.curves = [c])
    (hlen : s.curvePoints.length = s.num_points) :
    keyP junk s = some { s with
      controlPoints := c.controlPoints, anchorPoints := c.anchorPoints,
      curves := [⟨c.controlPoints ++ [Point.mk 0 0], c.anchorPoints,
                  ((c.controlPoints ++ [Point.mk 0 0]).length : Int) + 1⟩],
      curvePoints := (List.range s.num_points).map fun (i : Nat) =>
        bezier junk ⟨c.controlPoints ++ [Point.mk 0 0], c.anchorPoints,
                  ((c.controlPoints ++ [Point.mk 0 0]).length : Int) + 1⟩
          ((i : ℚ) / (s.num_points : ℚ)) } := by
  have hl : s.curves.getLast? = some c := by rw [hc]; rfl
  have hm : modifyLast
      (fun c => some { c with controlPoints := c.controlPoints ++ [Point.mk 0 0],
                              order := ((c.controlPoints ++ [Point.mk 0 0]).length : Int) + 1 })
      s.curves = some [⟨c.controlPoints ++ [Point.mk 0 0], c.anchorPoints,
                  ((c.controlPoints ++ [Point.mk 0 0]).length : Int) + 1⟩] := by
    rw [hc]; rfl
  unfold keyP
  simp only [hl, hm, Option.bind_eq_bind, Option.some_bind]
  rw [calculatePoints_single junk _ s.num_points s.curvePoints hlen]
  rfl

theorem keyP_startSession (junk : Junk) :
    keyP junk (startSession junk) = some (afterKeyP junk) := by
  rw [keyP_of_single junk (startSession junk) templateCurve rfl
    (by simp only [startSession, List.length_map, List.length_range])]
  rfl
/-- Witness of C9: the state after one key P is reachable; its curve has order 3 and two control
points. -/
theorem C9_order_invariant_witness :
    Reachable sevenJunk (afterKeyP sevenJunk)
      ∧ ∀ c, c ∈ (afterKeyP sevenJunk).curves → c.order = (c.controlPoints.length : Int) + 1 :=
  have hr : Reachable sevenJunk (afterKeyP sevenJunk) :=
    ⟨startSession sevenJunk, [Intent.addControlPoint], initialSession_eq sevenJunk, by
      simp only [applyIntents, applyIntent, keyP_startSession, Option.bind_eq_bind,
        Option.some_bind]⟩
  ⟨hr, C9_order_invariant sevenJunk (afterKeyP sevenJunk) hr⟩

/-- C10: a block other than Clear that returns leaves every curve before the last one as it
was (control points, anchors and order); the key N handler also leaves the curve that was last
as it was. -/
theorem C10_earlier_curves_frozen (junk : Junk) (a : Intent) (s s1 : Session)
    (ha : a ≠ Intent.clear) (h : applyIntent junk a s = some s1) :
    (∀ i : Nat, i + 1 < s.curves.length → s1.curves[i]? = s.curves[i]?)
      ∧ (a = Intent.addCurve → ∀ i : Nat, i < s.curves.length → s1.curves[i]? = s.curves[i]?) := by
  rcases applyIntent_curves junk a s s1 h with h1 | ⟨h0, _⟩ | h1 | ⟨last, c1, hna, hl, h1, _⟩
  · exact ⟨fun i _ => by rw [h1], fun _ i _ => by rw [h1]⟩
  · exact absurd h0 ha
  · exact ⟨fun i hi => by rw [h1, List.getElem?_append_left (by omega)],
      fun _ i hi => by rw [h1, List.getElem?_append_left hi]⟩
  · exact ⟨fun i hi => by rw [h1, getElem?_dropLast_concat s.curves c1 i hi],
      fun h2 => absurd h2 hna⟩

/-- Witness of C10: a drag tick on a session with two curves moves a control point of the
second curve and leaves the first curve as it was. -/
theorem C10_earlier_curves_frozen_witness :
    Intent.drag true 488 26 ≠ Intent.clear
      ∧ applyIntent sevenJunk (Intent.drag true 488 26) twoCurveDrag = some twoCurveDragged
      ∧ (∀ i : Nat, i + 1 < twoCurveDrag.curves.length →
          twoCurveDragged.curves[i]? = twoCurveDrag.curves[i]?)
      ∧ (Intent.drag true 488 26 = Intent.addCurve →
          ∀ i : Nat, i < twoCurveDrag.curves.length →
            twoCurveDragged.curves[i]? = twoCurveDrag.curves[i]?) :=
  ⟨by decide, by decide!,
   C10_earlier_curves_frozen sevenJunk (Intent.drag true 488 26) twoCurveDrag twoCurveDragged
     (by decide) (by decide!)⟩

/-! ## Lemmas on rounding and rescaling -/

theorem roundHalfEven_sub_le (m : ℚ) : |((roundHalfEven m : Int) : ℚ) - m| ≤ 1 / 2 := by
  have h1 : (⌊m⌋ : ℚ) ≤ m := Int.floor_le m
  have h2 : m < (⌊m⌋ : ℚ) + 1 := Int.lt_floor_add_one m
  unfold roundHalfEven
  split_ifs with ha hb hc
  · rw [abs_le]; constructor <;> linarith
  · rw [abs_le]; push_cast; constructor <;> linarith
  · rw [abs_le]; constructor <;> linarith
  · rw [abs_le]; push_cast; constructor <;> linarith

theorem roundHalfEven_eq_of (m : ℚ) (r : Int) (h : |m - (r : ℚ)| < 1 / 2) :
    roundHalfEven m = r := by
  rw [abs_lt] at h
  obtain ⟨hl, hu⟩ := h
  by_cases hr : (r : ℚ) ≤ m
  · have hf : ⌊m⌋ = r := by
      rw [Int.floor_eq_iff]
      constructor <;> linarith
    unfold roundHalfEven
    rw [hf, if_pos (by linarith)]
  · have hf : ⌊m⌋ = r - 1 := by
      rw [Int.floor_eq_iff]
      push_cast
      constructor <;> linarith
    unfold roundHalfEven
    rw [hf]
    push_cast
    rw [if_neg (by linarith), if_pos (by linarith)]
    ring

theorem roundDouble_eq_of (q : ℚ) (e r : Int) (h1 : (2 : ℚ) ^ e ≤ |q|) (h2 : |q| < (2 : ℚ) ^ (e + 1))
    (h3 : |q / (2 : ℚ) ^ (e - 52) - (r : ℚ)| < 1 / 2) :
    roundDouble q = (r : ℚ) * (2 : ℚ) ^ (e - 52) := by
  have hpos : 0 < |q| := lt_of_lt_of_le (by positivity) h1
  have hq : q ≠ 0 := abs_pos.mp hpos
  have he : Int.log 2 |q| = e := by
    apply le_antisymm
    · have := (Int.lt_zpow_iff_log_lt (by norm_num : 1 < 2) hpos).mp (by exact_mod_cast h2)
      omega
    · exact (Int.zpow_le_iff_le_log (by norm_num : 1 < 2) hpos).mp (by exact_mod_cast h1)
  unfold roundDouble
  rw [if_neg hq, he, roundHalfEven_eq_of _ r h3]

theorem roundDouble_err (q : ℚ) : |roundDouble q - q| ≤ |q| / 2 ^ 53 := by
  by_cases hq : q = 0
  · simp [roundDouble, hq]
  have hpos : 0 < |q| := abs_pos.mpr hq
  have hlog : ((2 : ℕ) : ℚ) ^ Int.log 2 |q| ≤ |q| := Int.zpow_log_le_self (by norm_num) hpos
  unfold roundDouble
  rw [if_neg hq]
  set e := Int.log 2 |q| with he
  have hu : (0 : ℚ) < (2 : ℚ) ^ (e - 52) := by positivity
  have hm := roundHalfEven_sub_le (q / (2 : ℚ) ^ (e - 52))
  have key : (roundHalfEven (q / (2 : ℚ) ^ (e - 52)) : ℚ) * (2 : ℚ) ^ (e - 52) - q
      = ((roundHalfEven (q / (2 : ℚ) ^ (e - 52)) : ℚ) - q / (2 : ℚ) ^ (e - 52))
        * (2 : ℚ) ^ (e - 52) := by
    field_simp
  rw [key, abs_mul, abs_of_pos hu]
  have h52 : (2 : ℚ) ^ (e - 52) = (2 : ℚ) ^ e / 2 ^ 52 := by
    rw [zpow_sub₀ (by norm_num : (2 : ℚ) ≠ 0)]
    norm_num
  calc |(roundHalfEven (q / (2 : ℚ) ^ (e - 52)) : ℚ) - q / (2 : ℚ) ^ (e - 52)| * (2 : ℚ) ^ (e - 52)
      ≤ 1 / 2 * (2 : ℚ) ^ (e - 52) := by
        apply mul_le_mul_of_nonneg_right hm hu.le
    _ = (2 : ℚ) ^ e / 2 ^ 53 := by rw [h52]; ring
    _ ≤ |q| / 2 ^ 53 := by
        apply div_le_div_of_nonneg_right _ (by positivity)
        exact_mod_cast hlog

theorem roundDouble_onePointOne :
    roundDouble (11 / 10) = 2476979795053773 / 2251799813685248 := by
  have := roundDouble_eq_of (11 / 10) 0 4953959590107546 (by norm_num [abs_of_pos])
    (by norm_num [abs_of_pos]) (by norm_num [abs_lt])
  rw [this]
  norm_num


theorem truncInt_of_nonneg (q : ℚ) (h : 0 ≤ q) : truncInt q = ⌊q⌋ := by
  unfold truncInt
  rw [Int.tdiv_eq_ediv (Rat.num_nonneg.mpr h) (by positivity), Rat.floor_def]

theorem doubleOnePointOne_eq : doubleOnePointOne = 2476979795053773 / 2251799813685248 :=
  roundDouble_onePointOne

theorem roundDouble_bounds (q : ℚ) (h : 0 ≤ q) :
    q * (1 - 1 / 2 ^ 53) ≤ roundDouble q ∧ roundDouble q ≤ q * (1 + 1 / 2 ^ 53) := by
  have := roundDouble_err q
  rw [abs_of_nonneg h, abs_le] at this
  constructor <;> linarith [this.1, this.2]

theorem toNat_truncInt_cast (q : ℚ) (h : 0 ≤ q) :
    (((truncInt q).toNat : Nat) : ℚ) ≤ q ∧ q < (((truncInt q).toNat : Nat) : ℚ) + 1 := by
  rw [truncInt_of_nonneg q h]
  have h0 : 0 ≤ ⌊q⌋ := Int.floor_nonneg.mpr h
  have hc : (((⌊q⌋.toNat : Nat) : Int) : ℚ) = ((⌊q⌋ : Int) : ℚ) := by
    rw [Int.toNat_of_nonneg h0]
  have hc2 : ((⌊q⌋.toNat : Nat) : ℚ) = ((⌊q⌋ : Int) : ℚ) := by
    rw [← hc]; norm_cast
  rw [hc2]
  exact ⟨Int.floor_le q, Int.lt_floor_add_one q⟩

/-- The sample count after `num_points *= 1.1; num_points /= 1.1` is the count before or one
less. -/
theorem numPoints_round_trip (N : Nat) (hN : N < 2 ^ 30) :
    (truncInt (roundDouble
        (((truncInt (roundDouble ((N : ℚ) * doubleOnePointOne))).toNat : ℚ)
          / doubleOnePointOne))).toNat ≤ N
      ∧ N ≤ (truncInt (roundDouble
        (((truncInt (roundDouble ((N : ℚ) * doubleOnePointOne))).toNat : ℚ)
          / doubleOnePointOne))).toNat + 1 := by
  rw [doubleOnePointOne_eq]
  set c : ℚ := 2476979795053773 / 2251799813685248 with hc
  have hcpos : (0 : ℚ) < c := by rw [hc]; norm_num
  have hc1 : (11 / 10 : ℚ) ≤ c := by rw [hc]; norm_num
  have ha0 : (0 : ℚ) ≤ (N : ℚ) := Nat.cast_nonneg N
  have haN : (N : ℚ) < 1073741824 := by
    have : N < 1073741824 := by omega
    exact_mod_cast this
  have hx0 : (0 : ℚ) ≤ (N : ℚ) * c := mul_nonneg ha0 hcpos.le
  obtain ⟨hylo, hyhi⟩ := roundDouble_bounds _ hx0
  set y := roundDouble ((N : ℚ) * c) with hy
  have hy0 : (0 : ℚ) ≤ y := le_trans (mul_nonneg hx0 (by norm_num)) hylo
  obtain ⟨hn1le, hn1lt⟩ := toNat_truncInt_cast y hy0
  set n1 : ℚ := (((truncInt y).toNat : Nat) : ℚ) with hn1
  have hn10 : (0 : ℚ) ≤ n1 := Nat.cast_nonneg _
  have hw0 : (0 : ℚ) ≤ n1 / c := div_nonneg hn10 hcpos.le
  obtain ⟨hzlo, hzhi⟩ := roundDouble_bounds _ hw0
  set z := roundDouble (n1 / c) with hz
  have hz0 : (0 : ℚ) ≤ z := le_trans (mul_nonneg hw0 (by norm_num)) hzlo
  obtain ⟨hn2le, hn2lt⟩ := toNat_truncInt_cast z hz0
  have hwc : n1 / c * c = n1 := div_mul_cancel₀ n1 hcpos.ne'
  -- upper bound on `w = n1 / c`
  have hwhi : n1 / c ≤ (N : ℚ) * (1 + 1 / 2 ^ 53) := by
    have : n1 / c * c ≤ (N : ℚ) * (1 + 1 / 2 ^ 53) * c := by
      rw [hwc]; nlinarith
    exact le_of_mul_le_mul_right this hcpos
  -- lower bound on `w`
  have hwlo : (N : ℚ) * (1 - 1 / 2 ^ 53) - 10 / 11 < n1 / c := by
    have : ((N : ℚ) * (1 - 1 / 2 ^ 53) - 10 / 11) * c < n1 / c * c := by
      rw [hwc]; nlinarith
    exact lt_of_mul_lt_mul_right this hcpos.le
  constructor
  · have h1 : ((((truncInt z).toNat : Nat)) : ℚ) < (N : ℚ) + 1 := by
      have : z ≤ (N : ℚ) * (1 + 1 / 2 ^ 53) * (1 + 1 / 2 ^ 53) := by
        calc z ≤ n1 / c * (1 + 1 / 2 ^ 53) := hzhi
          _ ≤ (N : ℚ) * (1 + 1 / 2 ^ 53) * (1 + 1 / 2 ^ 53) :=
            mul_le_mul_of_nonneg_right hwhi (by norm_num)
      norm_num at this ⊢
      linarith
    have h2 : (truncInt z).toNat < N + 1 := by exact_mod_cast h1
    omega
  · have h1 : (N : ℚ) - 1 < ((((truncInt z).toNat : Nat)) : ℚ) + 1 := by
      have : ((N : ℚ) * (1 - 1 / 2 ^ 53) - 10 / 11) * (1 - 1 / 2 ^ 53) ≤ z := by
        calc ((N : ℚ) * (1 - 1 / 2 ^ 53) - 10 / 11) * (1 - 1 / 2 ^ 53)
            ≤ n1 / c * (1 - 1 / 2 ^ 53) :=
              mul_le_mul_of_nonneg_right hwlo.le (by norm_num)
          _ ≤ z := hzlo
      norm_num at this ⊢
      linarith
    have h2 : (N : ℚ) < (((truncInt z).toNat + 1 + 1 : Nat) : ℚ) := by
      push_cast; linarith
    have h3 : N < (truncInt z).toNat + 1 + 1 := by exact_mod_cast h2
    omega

theorem scale_round_trip (x : ℚ) :
    |roundDouble (roundDouble (x * doubleOnePointOne) / doubleOnePointOne) - x|
      ≤ |x| * (3 / 2 ^ 53) := by
  rw [doubleOnePointOne_eq]
  set c : ℚ := 2476979795053773 / 2251799813685248 with hc
  have hcpos : (0 : ℚ) < c := by rw [hc]; norm_num
  have h1 := roundDouble_err (x * c)
  set a := roundDouble (x * c) with ha
  have h2 := roundDouble_err (a / c)
  set b := roundDouble (a / c) with hb
  have h3 : |a / c - x| ≤ |x| / 2 ^ 53 := by
    have : a / c - x = (a - x * c) / c := by field_simp; ring
    rw [this, abs_div, abs_of_pos hcpos, div_le_iff₀ hcpos]
    rw [abs_mul, abs_of_pos hcpos] at h1
    calc |a - x * c| ≤ |x| * c / 2 ^ 53 := h1
      _ = |x| / 2 ^ 53 * c := by ring
  have h4 : |a / c| ≤ |x| + |x| / 2 ^ 53 := by
    have := abs_sub_abs_le_abs_sub (a / c) x
    linarith
  have hx : 0 ≤ |x| := abs_nonneg x
  calc |b - x| = |(b - a / c) + (a / c - x)| := by ring_nf
    _ ≤ |b - a / c| + |a / c - x| := abs_add _ _
    _ ≤ |a / c| / 2 ^ 53 + |x| / 2 ^ 53 := add_le_add h2 h3
    _ ≤ (|x| + |x| / 2 ^ 53) / 2 ^ 53 + |x| / 2 ^ 53 := by
        have := div_le_div_of_nonneg_right h4 (by positivity : (0 : ℚ) ≤ 2 ^ 53)
        linarith
    _ ≤ |x| * (3 / 2 ^ 53) := by
        norm_num
        linarith


theorem toNat_truncInt_eq (q : ℚ) (n : Nat) (h1 : (n : ℚ) ≤ q) (h2 : q < (n : ℚ) + 1) :
    (truncInt q).toNat = n := by
  have h0 : (0 : ℚ) ≤ q := le_trans (Nat.cast_nonneg n) h1
  rw [truncInt_of_nonneg q h0]
  have : ⌊q⌋ = (n : Int) := by
    rw [Int.floor_eq_iff]
    push_cast
    exact ⟨h1, h2⟩
  rw [this, Int.toNat_ofNat]

/-- The start-up sample count under zoom-in: `(int)(1000 * 1.1) = 1100`. -/
theorem numPoints_start_up :
    (truncInt (roundDouble (((1000 : Nat) : ℚ) * doubleOnePointOne))).toNat = 1100 := by
  rw [doubleOnePointOne_eq]
  have := roundDouble_eq_of (((1000 : Nat) : ℚ) * (2476979795053773 / 2251799813685248)) 10
    4837851162214400 (by norm_num [abs_of_pos]) (by norm_num [abs_of_pos])
    (by norm_num [abs_lt])
  rw [this]
  exact toNat_truncInt_eq _ 1100 (by norm_num) (by norm_num)

/-- The zoomed sample count under zoom-out: `1100 / 1.1` is the `double` 999.9999999999999 and
`(int)` of it is 999. -/
theorem numPoints_start_down :
    (truncInt (roundDouble (((1100 : Nat) : ℚ) / doubleOnePointOne))).toNat = 999 := by
  rw [doubleOnePointOne_eq]
  have := roundDouble_eq_of (((1100 : Nat) : ℚ) / (2476979795053773 / 2251799813685248)) 9
    8796093022207999 (by norm_num [abs_of_pos]) (by norm_num [abs_of_pos])
    (by norm_num [abs_lt])
  rw [this]
  exact toNat_truncInt_eq _ 999 (by norm_num) (by norm_num)

/-- The resize-and-recompute tail of the arrow handlers always returns; it changes the sample
buffer only. -/
theorem resample_some (junk : Junk) (s : Session) :
    ∃ out, resample junk s = some { s with curvePoints := out }
      ∧ out.length = s.num_points * s.curves.length := by
  obtain ⟨out, ho, hl, _⟩ := calculatePoints_spec junk s.curves s.num_points
    (vecResize s.curvePoints (s.num_points * s.curves.length)) (by rw [vecResize_length])
  refine ⟨out, ?_, by rw [hl, vecResize_length]⟩
  simp only [resample, ho, Option.map_some']

theorem keyArrowUp_some (junk : Junk) (s : Session) :
    ∃ s1, keyArrowUp junk s = some s1
      ∧ s1.displayScale = roundDouble (s.displayScale * doubleOnePointOne)
      ∧ s1.num_points
          = (truncInt (roundDouble ((s.num_points : ℚ) * doubleOnePointOne))).toNat
      ∧ s1.curves = s.curves
      ∧ s1.curvePoints.length = s1.num_points * s1.curves.length := by
  obtain ⟨out, ho, hl⟩ := resample_some junk
    { s with displayScale := roundDouble (s.displayScale * doubleOnePointOne),
             num_points :=
               (truncInt (roundDouble ((s.num_points : ℚ) * doubleOnePointOne))).toNat }
  exact ⟨_, ho, rfl, rfl, rfl, hl⟩

theorem keyArrowDown_some (junk : Junk) (s : Session) :
    ∃ s1, keyArrowDown junk s = some s1
      ∧ s1.displayScale = roundDouble (s.displayScale / doubleOnePointOne)
      ∧ s1.num_points
          = (truncInt (roundDouble ((s.num_points : ℚ) / doubleOnePointOne))).toNat
      ∧ s1.curves = s.curves
      ∧ s1.curvePoints.length = s1.num_points * s1.curves.length := by
  obtain ⟨out, ho, hl⟩ := resample_some junk
    { s with displayScale := roundDouble (s.displayScale / doubleOnePointOne),
             num_points :=
               (truncInt (roundDouble ((s.num_points : ℚ) / doubleOnePointOne))).toNat }
  exact ⟨_, ho, rfl, rfl, rfl, hl⟩

theorem startScale_in_range :
    1 / 2 ^ 1000 ≤ |(startSession sevenJunk).displayScale|
      ∧ |(startSession sevenJunk).displayScale| ≤ 2 ^ 1000 := by
  show (1 : ℚ) / 2 ^ 1000 ≤ |(800 : ℚ)| ∧ |(800 : ℚ)| ≤ 2 ^ 1000
  rw [abs_of_pos (by norm_num : (0 : ℚ) < 800)]
  constructor
  · have h : (0 : ℚ) < 2 ^ 1000 := by positivity
    rw [div_le_iff₀ h]
    have : (1 : ℚ) ≤ 2 ^ 1000 := one_le_pow₀ (by norm_num)
    linarith
  · calc (800 : ℚ) ≤ 2 ^ 10 := by norm_num
      _ ≤ 2 ^ 1000 := pow_le_pow_right₀ (by norm_num) (by norm_num)

/-! ## Claims on rescaling, Clear and the order-1 curve -/

/-- C11 (as stated, refuted): zoom-in followed by zoom-out does not return `num_points` to its
value up to a rounding tolerance: `num_points` is an `int`, and the results of `*= 1.1` and
`/= 1.1` are truncated.  From the start-up state the count goes 1000, 1100, 999: `1100 / 1.1`
is the `double` 999.9999999999999. -/
theorem C11_rescale_loses_a_sample :
    ¬ (∀ (junk : Junk) (s s1 s2 : Session), keyArrowUp junk s = some s1 →
        keyArrowDown junk s1 = some s2 → s2.num_points = s.num_points) := by
  intro h
  obtain ⟨s1, h1, _, hn1, _⟩ := keyArrowUp_some sevenJunk (startSession sevenJunk)
  obtain ⟨s2, h2, _, hn2, _⟩ := keyArrowDown_some sevenJunk s1
  have h3 := h sevenJunk (startSession sevenJunk) s1 s2 h1 h2
  have e1 : s1.num_points = 1100 := by rw [hn1]; exact numPoints_start_up
  rw [hn2, e1, numPoints_start_down] at h3
  exact absurd h3 (by decide)

/-- C11 (amended): for a sample count below 2^30 and a viewport scale of magnitude between
2^-1000 and 2^1000 (where no `double` operation of the handlers overflows or underflows), zoom-in
followed by zoom-out always returns; it leaves the curve set alone, returns the viewport scale to
its value up to a relative error of 3 * 2^-53, and returns `num_points` to its value or to one
less. -/
theorem C11_rescale_round_trip (junk : Junk) (s : Session) (hN : s.num_points < 2 ^ 30)
    (_hS : 1 / 2 ^ 1000 ≤ |s.displayScale| ∧ |s.displayScale| ≤ 2 ^ 1000) :
    ∃ s1 s2, keyArrowUp junk s = some s1 ∧ keyArrowDown junk s1 = some s2
      ∧ |s2.displayScale - s.displayScale| ≤ |s.displayScale| * (3 / 2 ^ 53)
      ∧ s2.num_points ≤ s.num_points ∧ s.num_points ≤ s2.num_points + 1
      ∧ s2.curves = s.curves := by
  obtain ⟨s1, h1, hs1, hn1, hc1, _⟩ := keyArrowUp_some junk s
  obtain ⟨s2, h2, hs2, hn2, hc2, _⟩ := keyArrowDown_some junk s1
  have hrt := numPoints_round_trip s.num_points hN
  refine ⟨s1, s2, h1, h2, ?_, ?_, ?_, by rw [hc2, hc1]⟩
  · rw [hs2, hs1]; exact scale_round_trip s.displayScale
  · rw [hn2, hn1]; exact hrt.1
  · rw [hn2, hn1]; exact hrt.2

/-- C12: the key C handler followed by the key N handler returns with a curve set of length 1
whose only curve is the template `{[(0,1)], [(0,0),(1,1)], 2}`. -/
theorem C12_clear_then_addCurve (junk : Junk) (s : Session) :
    ∃ s1, keyN junk (keyC s) = some s1
      ∧ s1.curves = [⟨[⟨0, 1⟩], [⟨0, 0⟩, ⟨1, 1⟩], 2⟩] ∧ s1.curves.length = 1 := by
  obtain ⟨out, ho, _, _⟩ := calculatePoints_spec junk ([] ++ [templateCurve]) s.num_points
    (vecResize [] (s.num_points * ([] ++ [templateCurve] : List Curve).length))
    (by rw [vecResize_length])
  refine ⟨{ keyC s with curves := [templateCurve], curvePoints := out }, ?_, rfl, rfl⟩
  have hp : pushTemplate junk (keyC s)
      = some { keyC s with curves := [templateCurve], curvePoints := out } := by
    simp only [pushTemplate, keyC]
    rw [ho]
    rfl
  simp only [keyN]
  exact hp

/-- C13: on an order-1 curve (no control points, two anchors) `bezier(curve, t)` is
`lerp(anchorPoints[0], anchorPoints[1], t)` for every `t`. -/
theorem C13_order_one_is_lerp (junk : Junk) (a0 a1 : Point) (t : ℚ) :
    bezier junk ⟨[], [a0, a1], 1⟩ t = lerp a0 a1 t := by
  simp [bezier, bezierInvalidOrder, initTemp, bezierRounds, bezierRound, vecRead, lerp]

/-- Witness of C11: the start-up state (`num_points = 1000`, scale 800). -/
theorem C11_rescale_round_trip_witness :
    (startSession sevenJunk).num_points < 2 ^ 30
      ∧ (1 / 2 ^ 1000 ≤ |(startSession sevenJunk).displayScale|
          ∧ |(startSession sevenJunk).displayScale| ≤ 2 ^ 1000)
      ∧ ∃ s1 s2, keyArrowUp sevenJunk (startSession sevenJunk) = some s1
          ∧ keyArrowDown sevenJunk s1 = some s2
          ∧ |s2.displayScale - (startSession sevenJunk).displayScale|
              ≤ |(startSession sevenJunk).displayScale| * (3 / 2 ^ 53)
          ∧ s2.num_points ≤ (startSession sevenJunk).num_points
          ∧ (startSession sevenJunk).num_points ≤ s2.num_points + 1
          ∧ s2.curves = (startSession sevenJunk).curves :=
  ⟨by decide, startScale_in_range,
   C11_rescale_round_trip sevenJunk (startSession sevenJunk) (by decide) startScale_in_range⟩

/-! ## The working vector of `bezier` and its subscripts -/

theorem bezierRounds_length (junk : Junk) (order : Nat) (t : ℚ) :
    ∀ (k : Nat) (temp : List Point),
      (bezierRounds junk order t (k + 1) temp).length = order := by
  intro k
  induction k with
  | zero => intro temp; simp [bezierRounds, bezierRound_length]
  | succ k ih => intro temp; rw [bezierRounds]; exact ih _

theorem initTemp_length (junk : Junk) (c : Curve) :
    (initTemp junk c).length = (c.order - 1).toNat + 2 := by
  simp [initTemp]

theorem bezierInvalidOrder_false (cps : List Point) (anchors : List Point) :
    bezierInvalidOrder ⟨cps, anchors, ((cps.length + 1 : Nat) : Int)⟩ = false := by
  simp [bezierInvalidOrder]

/-- C14 (what the code does): on a curve of order `n >= 2` the working vector starts with
`n + 1` points, but every round pushes `n` points (the inner loop runs `i < order` whatever the
round), so a round takes length `n` to length `n`, not to `n - 1`, and after the `n` rounds the
vector holds `n` points, not one. -/
theorem C14_working_vector_keeps_length (junk : Junk) (p : Point) (cps : List Point)
    (a0 a1 : Point) (t : ℚ) (temp : List Point) :
    (initTemp junk ⟨p :: cps, [a0, a1], (((p :: cps).length + 1 : Nat) : Int)⟩).length
        = ((p :: cps).length + 1) + 1
      ∧ (bezierRound junk ((p :: cps).length + 1) t temp).length = (p :: cps).length + 1
      ∧ (bezierRounds junk ((p :: cps).length + 1) t ((p :: cps).length + 1)
          (initTemp junk ⟨p :: cps, [a0, a1], (((p :: cps).length + 1 : Nat) : Int)⟩)).length
        = (p :: cps).length + 1
      ∧ (p :: cps).length + 1 ≠ 1 := by
  refine ⟨?_, bezierRound_length _ _ _ _, bezierRounds_length _ _ _ _ _, by simp⟩
  rw [initTemp_length]
  simp

theorem mem_roundAccesses (order : Nat) (temp : List Point) (i : Nat) (h : i < order) :
    (⟨i + 1, temp.length⟩ : Access) ∈ roundAccesses order temp := by
  unfold roundAccesses
  rw [List.mem_flatMap]
  exact ⟨i, List.mem_range.mpr h, by simp⟩

/-- The second round reads index `order` of a vector of length `order`. -/
theorem mem_roundsAccesses_second (junk : Junk) (n : Nat) (t : ℚ) (k : Nat) (temp : List Point) :
    (⟨n + 1, n + 1⟩ : Access) ∈ roundsAccesses junk (n + 1) t (k + 2) temp := by
  rw [roundsAccesses, roundsAccesses]
  apply List.mem_append_right
  apply List.mem_append_left
  have := mem_roundAccesses (n + 1) (bezierRound junk (n + 1) t temp) n (by omega)
  rwa [bezierRound_length] at this

/-- C18 (what the code does): on every valid curve of order `n >= 2` the call `bezier(c, t)`
evaluates the subscript `tempPoints[n]` on a working vector of length `n` (second round,
`i = n - 1`, operand `tempPoints[i + 1]`): a read outside the working sequence. -/
theorem C18_bezier_reads_past_end (junk : Junk) (p : Point) (cps : List Point)
    (a0 a1 : Point) (t : ℚ) :
    ValidCurve ⟨p :: cps, [a0, a1], (((p :: cps).length + 1 : Nat) : Int)⟩
      ∧ (⟨(p :: cps).length + 1, (p :: cps).length + 1⟩ : Access)
          ∈ bezierAccesses junk ⟨p :: cps, [a0, a1], (((p :: cps).length + 1 : Nat) : Int)⟩ t
      ∧ Access.inRange ⟨(p :: cps).length + 1, (p :: cps).length + 1⟩ = false := by
  refine ⟨⟨?_, ?_, rfl⟩, ?_, by simp [Access.inRange]⟩
  · show (1 : Int) ≤ (((p :: cps).length + 1 : Nat) : Int)
    omega
  · show ((((p :: cps).length + 1 : Nat) : Int)) = ((p :: cps).length : Int) + 1
    omega
  · unfold bezierAccesses
    rw [bezierInvalidOrder_false]
    simp only [Bool.false_eq_true, if_false, Int.toNat_ofNat, List.length_cons]
    apply List.mem_append_left
    apply List.mem_append_right
    exact mem_roundsAccesses_second junk (cps.length + 1) t cps.length _

/-! ## The length of the sample buffer -/

theorem vecWrite_length (v out : List Point) (i : Nat) (p : Point)
    (h : vecWrite v i p = some out) : out.length = v.length := by
  unfold vecWrite at h
  split at h
  · simp only [Option.some.injEq] at h
    rw [← h, List.length_set]
  · simp at h

theorem sampleLoop_length (junk : Junk) (cv : Curve) (c N : Nat) (dt : ℚ) :
    ∀ (r i : Nat) (buf out : List Point),
      sampleLoop junk cv c N dt r i buf = some out → out.length = buf.length := by
  intro r
  induction r with
  | zero =>
    intro i buf out h
    simp only [sampleLoop, Option.some.injEq] at h
    rw [← h]
  | succ r ih =>
    intro i buf out h
    simp only [sampleLoop, Option.bind_eq_bind, Option.bind_eq_some] at h
    obtain ⟨buf1, h1, h2⟩ := h
    rw [ih (i + 1) buf1 out h2, vecWrite_length _ _ _ _ h1]

theorem curveLoop_length (junk : Junk) (N : Nat) (dt : ℚ) :
    ∀ (rest : List Curve) (c : Nat) (buf out : List Point),
      curveLoop junk N dt rest c buf = some out → out.length = buf.length := by
  intro rest
  induction rest with
  | nil =>
    intro c buf out h
    simp only [curveLoop, Option.some.injEq] at h
    rw [← h]
  | cons cv rest ih =>
    intro c buf out h
    simp only [curveLoop, Option.bind_eq_bind, Option.bind_eq_some] at h
    obtain ⟨buf1, h1, h2⟩ := h
    rw [ih (c + 1) buf1 out h2, sampleLoop_length junk cv c N dt N 0 buf buf1 h1]

theorem calculatePoints_length (junk : Junk) (cs : List Curve) (N : Nat) (buf out : List Point)
    (h : calculatePoints junk cs N buf = some out) : out.length = buf.length :=
  curveLoop_length junk N _ cs 0 buf out h

theorem keyP_buffer (junk : Junk) (s s1 : Session) (h : keyP junk s = some s1) :
    s1.num_points = s.num_points ∧ s1.curvePoints.length = s.curvePoints.length
      ∧ s1.curves.length = s.curves.length := by
  unfold keyP at h
  cases hl : s.curves.getLast? with
  | none => simp [hl] at h
  | some last =>
    simp only [hl, Option.bind_eq_bind, Option.bind_eq_some, Option.map_eq_some'] at h
    obtain ⟨curves1, hm, pts, hp, rfl⟩ := h
    obtain ⟨last1, c1, hl1, _, rfl⟩ := modifyLast_some _ _ _ hm
    exact ⟨rfl, calculatePoints_length _ _ _ _ _ hp, length_dropLast_concat s.curves last1 c1 hl1⟩

theorem pushTemplate_buffer (junk : Junk) (s s1 : Session) (h : pushTemplate junk s = some s1) :
    s1.curvePoints.length = s1.num_points * s1.curves.length := by
  simp only [pushTemplate, Option.map_eq_some'] at h
  obtain ⟨pts, hp, rfl⟩ := h
  show pts.length = s.num_points * (s.curves ++ [templateCurve]).length
  rw [calculatePoints_length _ _ _ _ _ hp, vecResize_length]

theorem resample_buffer (junk : Junk) (s s1 : Session) (h : resample junk s = some s1) :
    s1.curvePoints.length = s1.num_points * s1.curves.length := by
  simp only [resample, Option.map_eq_some'] at h
  obtain ⟨pts, hp, rfl⟩ := h
  show pts.length = s.num_points * s.curves.length
  rw [calculatePoints_length _ _ _ _ _ hp, vecResize_length]

theorem dragUpdate_buffer (mx my : Int) (s s1 : Session) (h : dragUpdate mx my s = some s1) :
    s1.num_points = s.num_points ∧ s1.curvePoints = s.curvePoints
      ∧ s1.curves.length = s.curves.length := by
  unfold dragUpdate at h
  simp only at h
  split at h
  · simp only [Option.map_eq_some'] at h
    obtain ⟨curves1, hm, rfl⟩ := h
    obtain ⟨last, c1, hl, _, rfl⟩ := modifyLast_some _ _ _ hm
    exact ⟨rfl, rfl, length_dropLast_concat s.curves last c1 hl⟩
  · split at h
    · simp only [Option.map_eq_some'] at h
      obtain ⟨curves1, hm, rfl⟩ := h
      obtain ⟨last, c1, hl, _, rfl⟩ := modifyLast_some _ _ _ hm
      exact ⟨rfl, rfl, length_dropLast_concat s.curves last c1 hl⟩
    · simp only [Option.some.injEq] at h
      rw [← h]
      exact ⟨rfl, rfl, rfl⟩

theorem dragTick_buffer (junk : Junk) (mx my : Int) (s s1 : Session)
    (h : dragTick junk mx my s = some s1) :
    s1.num_points = s.num_points ∧ s1.curvePoints.length = s.curvePoints.length
      ∧ s1.curves.length = s.curves.length := by
  simp only [dragTick, Option.bind_eq_bind, Option.bind_eq_some, Option.map_eq_some'] at h
  obtain ⟨s2, h2, pts, hp, rfl⟩ := h
  obtain ⟨hn, hb, hc⟩ := dragUpdate_buffer mx my s s2 h2
  refine ⟨hn, ?_, hc⟩
  show pts.length = s.curvePoints.length
  rw [calculatePoints_length _ _ _ _ _ hp, hb]

theorem dragActivate_buffer (mx my : Int) (s s1 : Session)
    (h : dragActivate mx my s = some s1) :
    s1.num_points = s.num_points ∧ s1.curvePoints = s.curvePoints ∧ s1.curves = s.curves := by
  unfold dragActivate at h
  split at h
  · simp at h
  · simp only [Option.some.injEq] at h
    rw [← h]
    exact ⟨rfl, rfl, rfl⟩

theorem keySpace_buffer (junk : Junk) (held : Bool) (mx my : Int) (s s1 : Session)
    (h : keySpace junk held mx my s = some s1) :
    s1.num_points = s.num_points ∧ s1.curvePoints.length = s.curvePoints.length
      ∧ s1.curves.length = s.curves.length := by
  unfold keySpace at h
  split at h
  · split at h
    · obtain ⟨h1, h2, h3⟩ := dragActivate_buffer mx my s s1 h
      exact ⟨h1, by rw [h2], by rw [h3]⟩
    · exact dragTick_buffer junk mx my s s1 h
  · simp only [Option.some.injEq] at h
    rw [← h]
    exact ⟨rfl, rfl, rfl⟩

/-- Every block of the loop body that returns keeps the buffer at `num_points` entries per
curve. -/
theorem applyIntent_buffer (junk : Junk) (a : Intent) (s s1 : Session)
    (hinv : s.curvePoints.length = s.num_points * s.curves.length)
    (h : applyIntent junk a s = some s1) :
    s1.curvePoints.length = s1.num_points * s1.curves.length := by
  cases a with
  | addControlPoint =>
    obtain ⟨h1, h2, h3⟩ := keyP_buffer junk s s1 h
    rw [h1, h2, h3]; exact hinv
  | addCurve =>
    simp only [applyIntent, keyN] at h
    split at h
    · split at h
      · simp only [Option.some.injEq] at h
        rw [← h]; exact hinv
      · exact pushTemplate_buffer junk s s1 h
    · exact pushTemplate_buffer junk s s1 h
  | pan held mx my =>
    simp only [applyIntent, Option.some.injEq] at h
    rw [← h]; unfold keyD; split <;> [split; skip] <;> exact hinv
  | render =>
    simp only [applyIntent, renderMarkers] at h
    split at h
    · split at h
      · simp at h
      · simp only [Option.some.injEq] at h
        rw [← h]; exact hinv
    · simp only [Option.some.injEq] at h
      rw [← h]; exact hinv
  | toggleMarkers =>
    simp only [applyIntent, Option.some.injEq] at h
    rw [← h]; exact hinv
  | rescaleUp =>
    simp only [applyIntent, keyArrowUp] at h
    exact resample_buffer junk _ s1 h
  | rescaleDown =>
    simp only [applyIntent, keyArrowDown] at h
    exact resample_buffer junk _ s1 h
  | drag held mx my =>
    obtain ⟨h1, h2, h3⟩ := keySpace_buffer junk held mx my s s1 h
    rw [h1, h2, h3]; exact hinv
  | clear =>
    simp only [applyIntent, Option.some.injEq] at h
    rw [← h]; simp [keyC]

theorem applyIntents_buffer (junk : Junk) :
    ∀ (intents : List Intent) (s s1 : Session),
      s.curvePoints.length = s.num_points * s.curves.length →
      applyIntents junk intents s = some s1 →
      s1.curvePoints.length = s1.num_points * s1.curves.length := by
  intro intents
  induction intents with
  | nil =>
    intro s s1 hinv h
    simp only [applyIntents, Option.some.injEq] at h
    rw [← h]; exact hinv
  | cons a rest ih =>
    intro s s1 hinv h
    simp only [applyIntents, Option.bind_eq_bind, Option.bind_eq_some] at h
    obtain ⟨s2, h2, h3⟩ := h
    exact ih s2 s1 (applyIntent_buffer junk a s s2 hinv h2) h3

theorem reachable_afterKeyP (junk : Junk) : Reachable junk (afterKeyP junk) :=
  ⟨startSession junk, [Intent.addControlPoint], initialSession_eq junk, by
    simp only [applyIntents, applyIntent, keyP_startSession, Option.bind_eq_bind,
      Option.some_bind]⟩

/-- C15: in every state reachable from the initial state the sample buffer has length
`num_points * curves.size()`, so every index `i + c * num_points` written by `calculatePoints`
(`c` a curve index, `0 <= i < num_points`) lies inside the buffer. -/
theorem C15_buffer_length_invariant (junk : Junk) (s : Session) (h : Reachable junk s) :
    s.curvePoints.length = s.num_points * s.curves.length
      ∧ ∀ c i : Nat, c < s.curves.length → i < s.num_points →
          i + c * s.num_points < s.curvePoints.length := by
  obtain ⟨s0, intents, h0, hrun⟩ := h
  rw [initialSession_eq] at h0
  simp only [Option.some.injEq] at h0
  subst h0
  have hinv : s.curvePoints.length = s.num_points * s.curves.length := by
    refine applyIntents_buffer junk intents _ s ?_ hrun
    simp only [startSession, List.length_map, List.length_range, List.length_singleton]
  refine ⟨hinv, ?_⟩
  intro c i hc hi
  rw [hinv]
  calc i + c * s.num_points < s.num_points + c * s.num_points := by omega
    _ = s.num_points * (c + 1) := by ring
    _ ≤ s.num_points * s.curves.length := Nat.mul_le_mul_left _ hc

/-- Witness of C15: the state after one key P is reachable; its buffer has 1000 entries for
its single curve. -/
theorem C15_buffer_length_invariant_witness :
    Reachable sevenJunk (afterKeyP sevenJunk)
      ∧ (afterKeyP sevenJunk).curvePoints.length
          = (afterKeyP sevenJunk).num_points * (afterKeyP sevenJunk).curves.length
      ∧ ∀ c i : Nat, c < (afterKeyP sevenJunk).curves.length →
          i < (afterKeyP sevenJunk).num_points →
          i + c * (afterKeyP sevenJunk).num_points < (afterKeyP sevenJunk).curvePoints.length :=
  ⟨reachable_afterKeyP sevenJunk,
   C15_buffer_length_invariant sevenJunk (afterKeyP sevenJunk) (reachable_afterKeyP sevenJunk)⟩

/-! ## Claims on curves of invalid order and on panning -/

/-- C17 (as stated, refuted): `calculatePoints` does not skip a curve whose order does not match
its control-point count.  With one such curve (order 5, no control point), one sample per curve
and a buffer holding (5,5), the call overwrites the entry with the sentinel (0,0). -/
theorem C17_invalid_curve_slice_is_overwritten :
    ¬ (∀ (junk : Junk) (cs : List Curve) (N : Nat) (buf out : List Point) (c i : Nat) (cv : Curve),
        calculatePoints junk cs N buf = some out → cs[c]? = some cv →
        bezierInvalidOrder cv = true → i < N → out[c * N + i]? = buf[c * N + i]?) := by
  intro h
  have h1 : calculatePoints sevenJunk [⟨[], [⟨0, 0⟩, ⟨1, 1⟩], 5⟩] 1 [⟨5, 5⟩] = some [⟨0, 0⟩] := by
    decide!
  have h2 := h sevenJunk [⟨[], [⟨0, 0⟩, ⟨1, 1⟩], 5⟩] 1 [⟨5, 5⟩] [⟨0, 0⟩] 0 0
    ⟨[], [⟨0, 0⟩, ⟨1, 1⟩], 5⟩ h1 rfl (by decide) (by decide)
  exact absurd h2 (by decide!)

/-- C17 (amended): on a buffer of length `N * len(curves)`, `calculatePoints` returns having
written the sentinel `Point()` = (0,0) into every entry of the slice of a curve whose order does
not match its control-point count, and the Bezier point of parameter `i / N` into entry `i` of
the slice of every valid curve. -/
theorem C17_invalid_curve_slice_is_sentinel (junk : Junk) (cs : List Curve) (N : Nat)
    (buf : List Point) (hlen : buf.length = N * cs.length) :
    ∃ out, calculatePoints junk cs N buf = some out ∧
      ∀ (c i : Nat) (cv : Curve), cs[c]? = some cv → i < N →
        (bezierInvalidOrder cv = true → out[c * N + i]? = some defaultPoint)
          ∧ (ValidCurve cv → out[c * N + i]? = some (bernsteinPoint cv ((i : ℚ) / (N : ℚ)))) := by
  obtain ⟨out, ho, _, hs⟩ := calculatePoints_spec junk cs N buf (by omega)
  refine ⟨out, ho, ?_⟩
  intro c i cv hcv hi
  have hc : c < cs.length := (List.getElem?_eq_some.mp hcv).1
  have hval := hs c i hc hi
  rw [hcv] at hval
  simp only [Option.map_some'] at hval
  exact ⟨fun hinv => by rw [hval, bezier_invalid junk cv _ hinv],
    fun hv => by rw [hval, bezier_valid junk cv _ hv]⟩

/-- Witness of C17: a curve of order 5 without control points followed by a straight line,
two samples per curve: the first slice receives (0,0) twice, the second the samples of the
line. -/
theorem C17_invalid_curve_slice_is_sentinel_witness :
    calculatePoints sevenJunk [⟨[], [⟨0, 0⟩, ⟨1, 1⟩], 5⟩, ⟨[], [⟨0, 0⟩, ⟨1, 1⟩], 1⟩] 2
        (List.replicate 4 ⟨5, 5⟩)
      = some [⟨0, 0⟩, ⟨0, 0⟩, ⟨0, 0⟩, ⟨1 / 2, 1 / 2⟩]
    ∧ ∃ out, calculatePoints sevenJunk
          [⟨[], [⟨0, 0⟩, ⟨1, 1⟩], 5⟩, ⟨[], [⟨0, 0⟩, ⟨1, 1⟩], 1⟩] 2 (List.replicate 4 ⟨5, 5⟩)
          = some out ∧
        ∀ (c i : Nat) (cv : Curve),
          ([⟨[], [⟨0, 0⟩, ⟨1, 1⟩], 5⟩, ⟨[], [⟨0, 0⟩, ⟨1, 1⟩], 1⟩] : List Curve)[c]? = some cv →
          i < 2 →
          (bezierInvalidOrder cv = true → out[c * 2 + i]? = some defaultPoint)
            ∧ (ValidCurve cv →
                out[c * 2 + i]? = some (bernsteinPoint cv ((i : ℚ) / ((2 : Nat) : ℚ)))) :=
  ⟨by decide!,
   C17_invalid_curve_slice_is_sentinel sevenJunk
     [⟨[], [⟨0, 0⟩, ⟨1, 1⟩], 5⟩, ⟨[], [⟨0, 0⟩, ⟨1, 1⟩], 1⟩] 2 (List.replicate 4 ⟨5, 5⟩)
     (by decide)⟩

/-- Effect of a run of pan ticks once the pan is under way. -/
theorem panRun_engaged :
    ∀ (ps : List (Int × Int)) (s : Session), s.isDraggingScreen = true →
      (panRun ps s).displayOffsetX
          = s.displayOffsetX
            + (((ps.getLastD (s.initialMouseX, s.initialMouseY)).1 - s.initialMouseX : Int) : ℚ)
        ∧ (panRun ps s).displayOffsetY
          = s.displayOffsetY
            + (((ps.getLastD (s.initialMouseX, s.initialMouseY)).2 - s.initialMouseY : Int) : ℚ)
        ∧ (panRun ps s).displayScale = s.displayScale
        ∧ (panRun ps s).curves = s.curves := by
  intro ps
  induction ps with
  | nil => intro s _; simp [panRun]
  | cons p rest ih =>
    intro s hs
    have hstep : keyD true p.1 p.2 s
        = { s with displayOffsetX := s.displayOffsetX + ((p.1 - s.initialMouseX : Int) : ℚ),
                   displayOffsetY := s.displayOffsetY + ((p.2 - s.initialMouseY : Int) : ℚ),
                   initialMouseX := p.1, initialMouseY := p.2 } := by
      simp [keyD, hs]
    obtain ⟨hx, hy, hsc, hc⟩ := ih (keyD true p.1 p.2 s) (by rw [hstep]; exact hs)
    rw [panRun, hx, hy, hsc, hc, hstep]
    rw [List.getLastD_cons]
    refine ⟨?_, ?_, rfl, rfl⟩
    · push_cast; ring
    · push_cast; ring

/-- C20: for a run of ticks with key D held that starts with the pan not under way, with
pointer positions `p_0` (activation), `p_1`, ..., `p_n`, the viewport offset after the last tick
is the offset before the run plus `p_n - p_0`, componentwise, whatever the positions in between;
the scale and the curve set are unchanged. -/
theorem C20_pan_accumulates (s : Session) (p0 : Int × Int) (ps : List (Int × Int))
    (h : s.isDraggingScreen = false) :
    (panRun (p0 :: ps) s).displayOffsetX
        = s.displayOffsetX + (((ps.getLastD p0).1 - p0.1 : Int) : ℚ)
      ∧ (panRun (p0 :: ps) s).displayOffsetY
        = s.displayOffsetY + (((ps.getLastD p0).2 - p0.2 : Int) : ℚ)
      ∧ (panRun (p0 :: ps) s).displayScale = s.displayScale
      ∧ (panRun (p0 :: ps) s).curves = s.curves := by
  have hstep : keyD true p0.1 p0.2 s
      = { s with initialMouseX := p0.1, initialMouseY := p0.2, isDraggingScreen := true } := by
    simp [keyD, h]
  have := panRun_engaged ps (keyD true p0.1 p0.2 s) (by rw [hstep])
  rw [panRun]
  rw [hstep] at this ⊢
  exact this

/-- Witness of C20: a pan from pixel (10,10) through (50,20) to (30,40) adds (20,30) to the
offset (480,-270). -/
theorem C20_pan_accumulates_witness :
    demoSession.isDraggingScreen = false
      ∧ (panRun [(10, 10), (50, 20), (30, 40)] demoSession).displayOffsetX = 500
      ∧ (panRun [(10, 10), (50, 20), (30, 40)] demoSession).displayOffsetY = -240
      ∧ (panRun ((10, 10) :: [(50, 20), (30, 40)]) demoSession).displayOffsetX
          = demoSession.displayOffsetX
            + (((([(50, 20), (30, 40)] : List (Int × Int)).getLastD (10, 10)).1
                - ((10, 10) : Int × Int).1 : Int) : ℚ)
      ∧ (panRun ((10, 10) :: [(50, 20), (30, 40)]) demoSession).displayOffsetY
          = demoSession.displayOffsetY
            + (((([(50, 20), (30, 40)] : List (Int × Int)).getLastD (10, 10)).2
                - ((10, 10) : Int × Int).2 : Int) : ℚ)
      ∧ (panRun ((10, 10) :: [(50, 20), (30, 40)]) demoSession).displayScale
          = demoSession.displayScale
      ∧ (panRun ((10, 10) :: [(50, 20), (30, 40)]) demoSession).curves = demoSession.curves :=
  ⟨rfl, by decide!, by decide!,
   C20_pan_accumulates demoSession (10, 10) [(50, 20), (30, 40)] rfl⟩

/-! ## Claims on a drag that engages no point -/

theorem dragActivate_eq (mx my : Int) (s : Session) (last : Curve)
    (hlast : s.curves.getLast? = some last) :
    dragActivate mx my s
      = some { s with
          controlPoints := last.controlPoints, anchorPoints := last.anchorPoints,
          prevMouseX := mx, prevMouseY := my,
          isDraggingControlPoint :=
            flagLoop (hit s.displayScale s.displayOffsetX s.displayOffsetY mx my)
              last.controlPoints s.isDraggingControlPoint,
          isDraggingAnchorPoint :=
            if !(flagLoop (hit s.displayScale s.displayOffsetX s.displayOffsetY mx my)
                  last.controlPoints s.isDraggingControlPoint)
            then flagLoop (hit s.displayScale s.displayOffsetX s.displayOffsetY mx my)
                  last.anchorPoints s.isDraggingAnchorPoint
            else s.isDraggingAnchorPoint } := by
  simp only [dragActivate, hlast]

/-- A drag tick with neither engagement flag set recomputes the samples and records the pointer;
it changes nothing else. -/
theorem dragTick_idle (junk : Junk) (mx my : Int) (s : Session)
    (hC : s.isDraggingControlPoint = false) (hA : s.isDraggingAnchorPoint = false)
    (hbuf : s.curvePoints.length = s.num_points * s.curves.length) :
    ∃ pts, dragTick junk mx my s
        = some { s with curvePoints := pts, prevMouseX := mx, prevMouseY := my }
      ∧ pts.length = s.curvePoints.length := by
  have hu : dragUpdate mx my s = some s := by
    simp [dragUpdate, hC, hA]
  obtain ⟨out, ho, hl, _⟩ := calculatePoints_spec junk s.curves s.num_points s.curvePoints
    (by omega)
  refine ⟨out, ?_, hl⟩
  simp only [dragTick, hu, Option.bind_eq_bind, Option.some_bind, ho, Option.map_some']

/-- A block of the loop body other than the P, N, H and C handlers, the space handler polling a
pointer position other than (-1,-1) with the key held, run in a session with markers visible, a
pointer position recorded and neither engagement flag set, returns and leaves the curve set and
all of this as it was. -/
theorem hover_intent (junk : Junk) (a : Intent) (s : Session)
    (ha : (∃ h x y, a = Intent.pan h x y) ∨ a = Intent.render ∨ a = Intent.rescaleUp
      ∨ a = Intent.rescaleDown ∨ ∃ x y, a = Intent.drag true x y ∧ ¬ (x = -1 ∧ y = -1))
    (hshow : s.showPoints = true) (hprev : ¬ (s.prevMouseX = -1 ∧ s.prevMouseY = -1))
    (hC : s.isDraggingControlPoint = false) (hA : s.isDraggingAnchorPoint = false)
    (hbuf : s.curvePoints.length = s.num_points * s.curves.length)
    (hne : s.curves ≠ []) :
    ∃ s1, applyIntent junk a s = some s1 ∧ s1.curves = s.curves ∧ s1.showPoints = true
      ∧ ¬ (s1.prevMouseX = -1 ∧ s1.prevMouseY = -1)
      ∧ s1.isDraggingControlPoint = false ∧ s1.isDraggingAnchorPoint = false
      ∧ s1.curvePoints.length = s1.num_points * s1.curves.length := by
  rcases ha with ⟨h, x, y, rfl⟩ | rfl | rfl | rfl | ⟨x, y, rfl, hxy⟩
  · refine ⟨keyD h x y s, rfl, ?_⟩
    unfold keyD
    split_ifs <;> exact ⟨rfl, hshow, hprev, hC, hA, hbuf⟩
  · cases hl : s.curves.getLast? with
    | none => exact absurd (List.getLast?_eq_none_iff.mp hl) hne
    | some last =>
      refine ⟨{ s with controlPoints := last.controlPoints, anchorPoints := last.anchorPoints },
        ?_, rfl, hshow, hprev, hC, hA, hbuf⟩
      simp only [applyIntent, renderMarkers, hshow, if_true, hl]
  · obtain ⟨out, ho, hl⟩ := resample_some junk
      { s with displayScale := roundDouble (s.displayScale * doubleOnePointOne),
               num_points :=
                 (truncInt (roundDouble ((s.num_points : ℚ) * doubleOnePointOne))).toNat }
    exact ⟨_, ho, rfl, hshow, hprev, hC, hA, hl⟩
  · obtain ⟨out, ho, hl⟩ := resample_some junk
      { s with displayScale := roundDouble (s.displayScale / doubleOnePointOne),
               num_points :=
                 (truncInt (roundDouble ((s.num_points : ℚ) / doubleOnePointOne))).toNat }
    exact ⟨_, ho, rfl, hshow, hprev, hC, hA, hl⟩
  · obtain ⟨pts, ht, hl⟩ := dragTick_idle junk x y s hC hA hbuf
    refine ⟨{ s with curvePoints := pts, prevMouseX := x, prevMouseY := y }, ?_, rfl, hshow,
      hxy, hC, hA, ?_⟩
    · show keySpace junk true x y s = _
      rw [keySpace_tick junk x y s hshow hprev, ht]
    · show pts.length = s.num_points * s.curves.length
      rw [hl]
      exact hbuf

/-- A run of such blocks returns and leaves the curve set and the flags as they were. -/
theorem hover_intents (junk : Junk) :
    ∀ (l : List Intent) (s : Session),
      (∀ a, a ∈ l → (∃ h x y, a = Intent.pan h x y) ∨ a = Intent.render ∨ a = Intent.rescaleUp
        ∨ a = Intent.rescaleDown ∨ ∃ x y, a = Intent.drag true x y ∧ ¬ (x = -1 ∧ y = -1)) →
      s.showPoints = true → ¬ (s.prevMouseX = -1 ∧ s.prevMouseY = -1) →
      s.isDraggingControlPoint = false → s.isDraggingAnchorPoint = false →
      s.curvePoints.length = s.num_points * s.curves.length → s.curves ≠ [] →
      ∃ s1, applyIntents junk l s = some s1 ∧ s1.curves = s.curves ∧ s1.showPoints = true
        ∧ ¬ (s1.prevMouseX = -1 ∧ s1.prevMouseY = -1)
        ∧ s1.isDraggingControlPoint = false ∧ s1.isDraggingAnchorPoint = false
        ∧ s1.curvePoints.length = s1.num_points * s1.curves.length := by
  intro l
  induction l with
  | nil =>
    intro s _ hshow hprev hC hA hbuf _
    exact ⟨s, rfl, rfl, hshow, hprev, hC, hA, hbuf⟩
  | cons a rest ih =>
    intro s hl hshow hprev hC hA hbuf hne
    obtain ⟨s1, h1, hc1, hs1, hp1, hC1, hA1, hb1⟩ :=
      hover_intent junk a s (hl a (List.mem_cons_self _ _)) hshow hprev hC hA hbuf hne
    obtain ⟨s2, h2, hc2, hs2, hp2, hC2, hA2, hb2⟩ :=
      ih s1 (fun b hb => hl b (List.mem_cons_of_mem _ hb)) hs1 hp1 hC1 hA1 hb1
        (by rw [hc1]; exact hne)
    refine ⟨s2, ?_, by rw [hc2, hc1], hs2, hp2, hC2, hA2, hb2⟩
    simp only [applyIntents, h1, Option.bind_eq_bind, Option.some_bind]
    exact h2

/-- The blocks of an iteration in which space is held, none of P, N, H, C is pressed and the
space handler polls a pointer position other than (-1,-1). -/
theorem frameIntents_hold (f : FrameInput)
    (hf : f.keySpace = true ∧ f.keyH = false ∧ f.keyP = false ∧ f.keyN = false
      ∧ f.keyC = false ∧ ¬ (f.mouseX1 = -1 ∧ f.mouseY1 = -1)) :
    ∀ a, a ∈ frameIntents f → (∃ h x y, a = Intent.pan h x y) ∨ a = Intent.render
      ∨ a = Intent.rescaleUp ∨ a = Intent.rescaleDown
      ∨ ∃ x y, a = Intent.drag true x y ∧ ¬ (x = -1 ∧ y = -1) := by
  obtain ⟨hS, hH, hP, hN, hK, hxy⟩ := hf
  intro a ha
  simp only [frameIntents, hS, hH, hP, hN, hK, if_false, Bool.false_eq_true, List.nil_append,
    List.append_nil, List.mem_append, List.mem_cons, List.mem_singleton, List.not_mem_nil,
    or_false] at ha
  rcases ha with ((h | h) | h) | h
  · rcases h with h | h
    · exact Or.inl ⟨_, _, _, h⟩
    · exact Or.inr (Or.inl h)
  · split_ifs at h
    · simp only [List.mem_singleton] at h
      exact Or.inr (Or.inr (Or.inl h))
    · simp at h
  · split_ifs at h
    · simp only [List.mem_singleton] at h
      exact Or.inr (Or.inr (Or.inr (Or.inl h)))
    · simp at h
  · exact Or.inr (Or.inr (Or.inr (Or.inr ⟨_, _, h, hxy⟩)))

/-- A run of such iterations from a session with markers visible, a pointer position recorded
and neither engagement flag set returns and leaves the curve set and the flags as they were. -/
theorem frameRun_hover (junk : Junk) :
    ∀ (frames : List FrameInput) (s : Session),
      (∀ f, f ∈ frames → f.keySpace = true ∧ f.keyH = false ∧ f.keyP = false ∧ f.keyN = false
        ∧ f.keyC = false ∧ ¬ (f.mouseX1 = -1 ∧ f.mouseY1 = -1)) →
      s.showPoints = true → ¬ (s.prevMouseX = -1 ∧ s.prevMouseY = -1) →
      s.isDraggingControlPoint = false → s.isDraggingAnchorPoint = false →
      s.curvePoints.length = s.num_points * s.curves.length → s.curves ≠ [] →
      ∃ s1, frameRun junk frames s = some s1 ∧ s1.curves = s.curves
        ∧ s1.isDraggingControlPoint = false ∧ s1.isDraggingAnchorPoint = false := by
  intro frames
  induction frames with
  | nil =>
    intro s _ _ _ hC hA _ _
    exact ⟨s, rfl, rfl, hC, hA⟩
  | cons f rest ih =>
    intro s hl hshow hprev hC hA hbuf hne
    obtain ⟨s1, h1, hc1, hs1, hp1, hC1, hA1, hb1⟩ :=
      hover_intents junk (frameIntents f) s
        (frameIntents_hold f (hl f (List.mem_cons_self _ _))) hshow hprev hC hA hbuf hne
    obtain ⟨s2, h2, hc2, hC2, hA2⟩ :=
      ih s1 (fun g hg => hl g (List.mem_cons_of_mem _ hg)) hs1 hp1 hC1 hA1 hb1
        (by rw [hc1]; exact hne)
    refine ⟨s2, ?_, by rw [hc2, hc1], hC2, hA2⟩
    have hfr : frame junk f s = some s1 := h1
    simp only [frameRun, hfr, Option.bind_eq_bind, Option.some_bind]
    exact h2

/-- With the pointer never at (-1,-1), hiding and showing the markers during the hold restarts
the pick as well: the space handler runs only while `showPoints` is set, so an iteration with
the markers hidden takes its release branch.  On the small session, after an activation at (0,0)
(no point within tolerance), space and H held for two iterations with the pointer at (480,10)
and then space alone with the pointer at (488,26) move the control point to (1/100, 49/50). -/
theorem markers_toggle_restarts_pick :
    (keySpace sevenJunk true 0 0 demoSession).bind
        (frameRun sevenJunk [markersFrame, markersFrame, movedFrame]) = some windowExitDragged
      ∧ windowExitDragged.curves ≠ demoSession.curves := by
  constructor
  · decide!
  · decide!

/-- C16 (as stated, refuted): "whatever the pointer positions" fails.  The handler recognises
the activation tick by `prevMouseX == -1 && prevMouseY == -1`, and (-1,-1) is also a pointer
position (the display reports -1 outside the window).  On the small session, space held through
the positions (0,0) (no point within tolerance), (-1,-1), (480,10), (488,26) re-runs the
activation pick at (480,10), engages the control point and moves it. -/
theorem C16_pointer_at_minus_one_restarts_pick :
    ¬ (∀ (junk : Junk) (s s1 : Session) (last : Curve) (p0 : Int × Int) (ps : List (Int × Int)),
        s.showPoints = true → (s.prevMouseX = -1 ∧ s.prevMouseY = -1) →
        s.isDraggingControlPoint = false → s.isDraggingAnchorPoint = false →
        s.curves.getLast? = some last →
        (∀ q, q ∈ last.controlPoints ++ last.anchorPoints →
          hit s.displayScale s.displayOffsetX s.displayOffsetY p0.1 p0.2 q = false) →
        dragRun junk (p0 :: ps) s = some s1 → s1.curves = s.curves) := by
  intro h
  have hrun : dragRun sevenJunk [(0, 0), (-1, -1), (480, 10), (488, 26)] demoSession
      = some windowExitDragged := by decide!
  have := h sevenJunk demoSession windowExitDragged templateCurve (0, 0)
    [(-1, -1), (480, 10), (488, 26)] rfl (by decide) rfl rfl rfl (by decide!) hrun
  exact absurd this (by decide!)

/-- C16 (amended): let the space handler run its activation branch (markers visible, no
previous pointer position recorded, both engagement flags clear, the sample buffer holding
`num_points` entries per curve) with the pointer at a position other than (-1,-1), within the
tolerance of no control or anchor point of the last curve.  Then for every run of further
iterations of the display loop in which space is held, none of the keys H, P, N, C is pressed and
the space handler polls no pointer position equal to (-1,-1), whatever else the pointer does and
whether or not the view is panned (D) or rescaled (arrows), every iteration returns, no
engagement flag is set and the curve set is unchanged. -/
theorem C16_no_engagement_no_move_in_loop (junk : Junk) (s : Session) (last : Curve)
    (p0 : Int × Int) (frames : List FrameInput)
    (hshow : s.showPoints = true) (hprev : s.prevMouseX = -1 ∧ s.prevMouseY = -1)
    (hC : s.isDraggingControlPoint = false) (hA : s.isDraggingAnchorPoint = false)
    (hbuf : s.curvePoints.length = s.num_points * s.curves.length)
    (hlast : s.curves.getLast? = some last)
    (hmiss : ∀ q, q ∈ last.controlPoints ++ last.anchorPoints →
      hit s.displayScale s.displayOffsetX s.displayOffsetY p0.1 p0.2 q = false)
    (hp0 : ¬ (p0.1 = -1 ∧ p0.2 = -1))
    (hframes : ∀ f, f ∈ frames → f.keySpace = true ∧ f.keyH = false ∧ f.keyP = false
      ∧ f.keyN = false ∧ f.keyC = false ∧ ¬ (f.mouseX1 = -1 ∧ f.mouseY1 = -1)) :
    ∃ s1, (keySpace junk true p0.1 p0.2 s).bind (frameRun junk frames) = some s1
      ∧ s1.curves = s.curves
      ∧ s1.isDraggingControlPoint = false ∧ s1.isDraggingAnchorPoint = false := by
  have hfC : flagLoop (hit s.displayScale s.displayOffsetX s.displayOffsetY p0.1 p0.2)
      last.controlPoints s.isDraggingControlPoint = false := by
    rw [flagLoop_none _ _ _ (fun q hq => hmiss q (List.mem_append_left _ hq))]
    exact hC
  have hfA : flagLoop (hit s.displayScale s.displayOffsetX s.displayOffsetY p0.1 p0.2)
      last.anchorPoints s.isDraggingAnchorPoint = false := by
    rw [flagLoop_none _ _ _ (fun q hq => hmiss q (List.mem_append_right _ hq))]
    exact hA
  have hstep : keySpace junk true p0.1 p0.2 s
      = some { s with
          controlPoints := last.controlPoints, anchorPoints := last.anchorPoints,
          prevMouseX := p0.1, prevMouseY := p0.2,
          isDraggingControlPoint := false, isDraggingAnchorPoint := false } := by
    simp only [keySpace, hshow, Bool.and_self, if_true, hprev, and_self]
    rw [dragActivate_eq p0.1 p0.2 s last hlast]
    simp only [hfC, hfA, Bool.not_false, if_true, hshow]
  have hne : s.curves ≠ [] := by
    intro h0
    rw [h0] at hlast
    exact absurd hlast (by simp)
  obtain ⟨s1, h1, hc1, hC1, hA1⟩ := frameRun_hover junk frames
    { s with
      controlPoints := last.controlPoints, anchorPoints := last.anchorPoints,
      prevMouseX := p0.1, prevMouseY := p0.2,
      isDraggingControlPoint := false, isDraggingAnchorPoint := false }
    hframes hshow hp0 rfl rfl hbuf hne
  refine ⟨s1, ?_, hc1, hC1, hA1⟩
  rw [hstep]
  exact h1

/-- Witness of C16: on the small session the activation at (0,0) engages no point; in the next
two iterations space stays held, first with D and ARROWUP held and the pointer over the control
point at (480,10), then with the pointer at (488,26): the curve set stays as it was. -/
theorem C16_no_engagement_no_move_in_loop_witness :
    demoSession.showPoints = true
      ∧ (demoSession.prevMouseX = -1 ∧ demoSession.prevMouseY = -1)
      ∧ demoSession.curves.getLast? = some templateCurve
      ∧ ∃ s1, (keySpace sevenJunk true 0 0 demoSession).bind
            (frameRun sevenJunk [panZoomFrame, movedFrame]) = some s1
          ∧ s1.curves = demoSession.curves
          ∧ s1.isDraggingControlPoint = false ∧ s1.isDraggingAnchorPoint = false :=
  ⟨rfl, by decide, rfl,
   C16_no_engagement_no_move_in_loop sevenJunk demoSession templateCurve (0, 0)
     [panZoomFrame, movedFrame] rfl (by decide) rfl rfl (by decide) rfl (by decide!)
     (by decide)
     (fun f hf => by
        simp only [List.mem_cons, List.mem_singleton, List.not_mem_nil, or_false] at hf
        rcases hf with rfl | rfl <;> decide)⟩

/-! ## Claims on the index used by a drag tick -/

theorem reachable_applyIntents (junk : Junk) (l : List Intent) (s s1 : Session)
    (hr : Reachable junk s) (h : applyIntents junk l s = some s1) : Reachable junk s1 := by
  obtain ⟨s0, intents, h0, hrun⟩ := hr
  refine ⟨s0, intents ++ l, h0, ?_⟩
  rw [applyIntents_append, hrun]
  exact h

/-- A drag tick with the control flag set whose re-pick leaves the index at -1 faults: the
update is `controlPoints[-1].x += ...`. -/
theorem dragTick_fault (junk : Junk) (mx my : Int) (s : Session)
    (hflag : s.isDraggingControlPoint = true)
    (hidx : indexLoop
      (hit s.displayScale s.displayOffsetX s.displayOffsetY s.prevMouseX s.prevMouseY)
      s.controlPoints 0 s.controlPointIndex = -1) :
    dragTick junk mx my s = none := by
  have hu : dragUpdate mx my s = none := by
    simp only [dragUpdate, hflag, if_true, hidx]
    unfold modifyLast
    cases s.curves.getLast? with
    | none => rfl
    | some c => simp [movePoint]
  simp only [dragTick, hu, Option.bind_eq_bind, Option.none_bind]

/-- The iteration `spaceFrame` on a session showing the template curve at the start-up viewport
engages the control point. -/
theorem frame_space_engages (junk : Junk) (s : Session)
    (hlast : s.curves.getLast? = some templateCurve) (hshow : s.showPoints = true)
    (hprev : s.prevMouseX = -1 ∧ s.prevMouseY = -1)
    (hC : s.isDraggingControlPoint = false) (hA : s.isDraggingAnchorPoint = false)
    (hscale : s.displayScale = 800) (hx : s.displayOffsetX = 1920 / 4)
    (hy : s.displayOffsetY = -1080 / 4) :
    frame junk spaceFrame s = some (engaged s) := by
  have hf : flagLoop (hit 800 (1920 / 4) (-1080 / 4) 480 10) templateCurve.controlPoints false
      = true := by decide!
  obtain ⟨hpx, hpy⟩ := hprev
  cases s
  simp only at hlast hshow hpx hpy hC hA hscale hx hy
  subst hshow hpx hpy hC hA hscale hx hy
  show applyIntents junk [Intent.pan false 480 10, Intent.render, Intent.drag true 480 10] _ = _
  simp only [applyIntents, applyIntent, keyD, renderMarkers, keySpace, dragActivate, engaged,
    hlast, hf, Option.bind_eq_bind, Option.some_bind, Bool.false_eq_true, if_false, if_true,
    Bool.and_self, and_self, Bool.not_true]

/-- After `spaceFrame` has engaged the control point, the blocks of `zoomFrame` up to the
ARROWUP handler return, and in the state they leave the space handler faults: at scale
880.0000000000001 the control point is at pixel (480,-70), the re-pick at the recorded pointer
(480,10) finds nothing and the index variable still holds its initial value -1. -/
theorem zoom_during_drag (junk : Junk) (s : Session)
    (hlast : s.curves.getLast? = some templateCurve) (hshow : s.showPoints = true)
    (hscale : s.displayScale = 800) (hx : s.displayOffsetX = 1920 / 4)
    (hy : s.displayOffsetY = -1080 / 4) (hidx : s.controlPointIndex = -1) :
    ∃ out, applyIntents junk [Intent.pan false 480 10, Intent.render, Intent.rescaleUp]
            (engaged s) = some (zoomed (engaged s) out)
      ∧ indexLoop
          (hit (zoomed (engaged s) out).displayScale (zoomed (engaged s) out).displayOffsetX
            (zoomed (engaged s) out).displayOffsetY (zoomed (engaged s) out).prevMouseX
            (zoomed (engaged s) out).prevMouseY)
          (zoomed (engaged s) out).controlPoints 0 (zoomed (engaged s) out).controlPointIndex
          = -1
      ∧ (∀ mx my, keySpace junk true mx my (zoomed (engaged s) out) = none)
      ∧ frame junk zoomFrame (engaged s) = none := by
  have hscale2 : roundDouble (800 * doubleOnePointOne) = 7740561859543041 / 8796093022208 := by
    rw [doubleOnePointOne_eq]
    have := roundDouble_eq_of (800 * (2476979795053773 / 2251799813685248)) 9
      7740561859543041 (by norm_num [abs_of_pos]) (by norm_num [abs_of_pos])
      (by norm_num [abs_lt])
    rw [this]
    norm_num
  have hi : indexLoop (hit (7740561859543041 / 8796093022208) (1920 / 4) (-1080 / 4) 480 10)
      templateCurve.controlPoints 0 (-1) = -1 := by decide!
  have e0 : keyD false 480 10 (engaged s) = engaged s := rfl
  have e1 : renderMarkers (engaged s) = some (engaged s) := by
    have h1 : (engaged s).showPoints = true := hshow
    have h2 : (engaged s).curves.getLast? = some templateCurve := hlast
    unfold renderMarkers
    rw [if_pos h1]
    simp only [h2]
    rfl
  obtain ⟨out, ho, _⟩ := resample_some junk
    { engaged s with
      displayScale := roundDouble ((engaged s).displayScale * doubleOnePointOne),
      num_points :=
        (truncInt (roundDouble (((engaged s).num_points : ℚ) * doubleOnePointOne))).toNat }
  have e2 : keyArrowUp junk (engaged s) = some (zoomed (engaged s) out) := ho
  have hidx2 : indexLoop
      (hit (zoomed (engaged s) out).displayScale (zoomed (engaged s) out).displayOffsetX
        (zoomed (engaged s) out).displayOffsetY (zoomed (engaged s) out).prevMouseX
        (zoomed (engaged s) out).prevMouseY)
      (zoomed (engaged s) out).controlPoints 0 (zoomed (engaged s) out).controlPointIndex
      = -1 := by
    show indexLoop
      (hit (roundDouble (s.displayScale * doubleOnePointOne)) s.displayOffsetX
        s.displayOffsetY 480 10)
      templateCurve.controlPoints 0 s.controlPointIndex = -1
    rw [hscale, hx, hy, hidx, hscale2]; exact hi
  have hfault : ∀ mx my, keySpace junk true mx my (zoomed (engaged s) out) = none := by
    intro mx my
    rw [keySpace_tick junk mx my (zoomed (engaged s) out) hshow
      (show ¬ ((480 : Int) = -1 ∧ (10 : Int) = -1) by decide)]
    exact dragTick_fault junk mx my (zoomed (engaged s) out) rfl hidx2
  have hrun : applyIntents junk [Intent.pan false 480 10, Intent.render, Intent.rescaleUp]
      (engaged s) = some (zoomed (engaged s) out) := by
    simp only [applyIntents, applyIntent, Option.bind_eq_bind, Option.some_bind, e0, e1, e2]
  refine ⟨out, hrun, hidx2, hfault, ?_⟩
  show applyIntents junk
    ([Intent.pan false 480 10, Intent.render, Intent.rescaleUp] ++ [Intent.drag true 480 10])
    (engaged s) = none
  rw [applyIntents_append, hrun]
  simp only [Option.bind_eq_bind, Option.some_bind, applyIntents, applyIntent, hfault,
    Option.none_bind]

/-- C19 (what the code does): from the initial state, an iteration with space held over the
control point (pixel (480,10)) followed by an iteration with ARROWUP pressed and space still held
reaches a drag tick in which the control flag is set while the re-pick leaves
`controlPointIndex` at its initial value -1; the update `controlPoints[-1]` is out of range and
the iteration faults. -/
theorem C19_drag_tick_uses_index_minus_one :
    frame sevenJunk spaceFrame (startSession sevenJunk) = some (engaged (startSession sevenJunk))
      ∧ Reachable sevenJunk (engaged (startSession sevenJunk))
      ∧ frame sevenJunk zoomFrame (engaged (startSession sevenJunk)) = none
      ∧ ∃ s2, Reachable sevenJunk s2
          ∧ s2.isDraggingControlPoint = true ∧ s2.showPoints = true
          ∧ ¬ (s2.prevMouseX = -1 ∧ s2.prevMouseY = -1)
          ∧ indexLoop
              (hit s2.displayScale s2.displayOffsetX s2.displayOffsetY s2.prevMouseX
                s2.prevMouseY)
              s2.controlPoints 0 s2.controlPointIndex = -1
          ∧ ∀ mx my, keySpace sevenJunk true mx my s2 = none := by
  have hstart : Reachable sevenJunk (startSession sevenJunk) :=
    ⟨startSession sevenJunk, [], initialSession_eq sevenJunk, rfl⟩
  have h1 := frame_space_engages sevenJunk (startSession sevenJunk) rfl rfl ⟨rfl, rfl⟩ rfl rfl
    rfl rfl rfl
  have hr1 := reachable_frame sevenJunk spaceFrame _ _ hstart h1
  obtain ⟨out, hrun, hidx, hfault, hframe⟩ :=
    zoom_during_drag sevenJunk (startSession sevenJunk) rfl rfl rfl rfl rfl rfl
  exact ⟨h1, hr1, hframe, zoomed (engaged (startSession sevenJunk)) out,
    reachable_applyIntents sevenJunk _ _ _ hr1 hrun, rfl, rfl,
    (show ¬ ((480 : Int) = -1 ∧ (10 : Int) = -1) by decide), hidx, hfault⟩

/-! ## The end points in `double` arithmetic -/

theorem isDouble_zero : IsDouble 0 := by
  simp [IsDouble, roundDouble]

theorem isDouble_one : IsDouble 1 := by
  unfold IsDouble
  have := roundDouble_eq_of 1 0 4503599627370496 (by norm_num) (by norm_num)
    (by norm_num [abs_lt])
  rw [this]
  norm_num

theorem lerpDouble_zero (p q : Point) (hx : IsDouble p.x) (hy : IsDouble p.y) :
    lerpDouble p q 0 = p := by
  unfold IsDouble at hx hy
  have h0 : roundDouble 0 = 0 := isDouble_zero
  simp only [lerpDouble, zero_mul, h0, add_zero, hx, hy]

theorem vecRead_bezierRoundDouble (junk : Junk) (order : Nat) (t : ℚ) (temp : List Point)
    (i : Nat) (h : i < order) :
    vecRead junk (bezierRoundDouble junk order t temp) i
      = lerpDouble (vecRead junk temp i) (vecRead junk temp (i + 1)) t := by
  have hl : i < (bezierRoundDouble junk order t temp).length := by
    simp [bezierRoundDouble]; exact h
  rw [vecRead_of_lt junk _ i hl]
  simp [bezierRoundDouble]

/-- At `t = 0` every round in `double` arithmetic leaves an entry that is a `double` as it
was. -/
theorem roundsDouble_zero (junk : Junk) (order : Nat) :
    ∀ (k : Nat) (temp : List Point) (j : Nat), j + k ≤ order →
      IsDouble (vecRead junk temp j).x → IsDouble (vecRead junk temp j).y →
      vecRead junk (bezierRoundsDouble junk order 0 k temp) j = vecRead junk temp j := by
  intro k
  induction k with
  | zero => intro temp j _ _ _; rfl
  | succ k ih =>
    intro temp j hj hx hy
    have e : vecRead junk (bezierRoundDouble junk order 0 temp) j = vecRead junk temp j := by
      rw [vecRead_bezierRoundDouble junk order 0 temp j (by omega)]
      exact lerpDouble_zero _ _ hx hy
    rw [bezierRoundsDouble, ih (bezierRoundDouble junk order 0 temp) j (by omega)
      (by rw [e]; exact hx) (by rw [e]; exact hy), e]

/-- One coordinate of `lerp(p, q, 1)` in `double` arithmetic: it is `q` up to `6 * 2^-53 * B`
when `|p|, |q| <= B`. -/
theorem lerpDouble_one_err (p q B : ℚ) (hp : |p| ≤ B) (hq : |q| ≤ B) :
    |roundDouble (p + roundDouble (1 * roundDouble (q - p))) - q| ≤ 6 / 2 ^ 53 * B := by
  have hB : 0 ≤ B := le_trans (abs_nonneg p) hp
  have h1 := roundDouble_err (q - p)
  set d1 := roundDouble (q - p) with hd1
  rw [one_mul]
  have h2 := roundDouble_err d1
  set d2 := roundDouble d1 with hd2
  have h3 := roundDouble_err (p + d2)
  set r := roundDouble (p + d2) with hr
  have hqp : |q - p| ≤ 2 * B := by
    calc |q - p| ≤ |q| + |p| := abs_sub q p
      _ ≤ 2 * B := by linarith
  have hd1b : |d1| ≤ 2 * B + 2 * B / 2 ^ 53 := by
    have := abs_sub_abs_le_abs_sub d1 (q - p)
    have h1' : |d1 - (q - p)| ≤ 2 * B / 2 ^ 53 :=
      le_trans h1 (div_le_div_of_nonneg_right hqp (by positivity))
    linarith
  have e1 : |d2 - (q - p)| ≤ 4 * B / 2 ^ 53 + 2 * B / 2 ^ 53 / 2 ^ 53 := by
    have h1' : |d1 - (q - p)| ≤ 2 * B / 2 ^ 53 :=
      le_trans h1 (div_le_div_of_nonneg_right hqp (by positivity))
    have h2' : |d2 - d1| ≤ (2 * B + 2 * B / 2 ^ 53) / 2 ^ 53 :=
      le_trans h2 (div_le_div_of_nonneg_right hd1b (by positivity))
    calc |d2 - (q - p)| = |(d2 - d1) + (d1 - (q - p))| := by ring_nf
      _ ≤ |d2 - d1| + |d1 - (q - p)| := abs_add _ _
      _ ≤ (2 * B + 2 * B / 2 ^ 53) / 2 ^ 53 + 2 * B / 2 ^ 53 := add_le_add h2' h1'
      _ = 4 * B / 2 ^ 53 + 2 * B / 2 ^ 53 / 2 ^ 53 := by ring
  have e2 : |p + d2| ≤ B + (4 * B / 2 ^ 53 + 2 * B / 2 ^ 53 / 2 ^ 53) := by
    calc |p + d2| = |q + (d2 - (q - p))| := by ring_nf
      _ ≤ |q| + |d2 - (q - p)| := abs_add _ _
      _ ≤ B + (4 * B / 2 ^ 53 + 2 * B / 2 ^ 53 / 2 ^ 53) := add_le_add hq e1
  have h3' : |r - (p + d2)| ≤ (B + (4 * B / 2 ^ 53 + 2 * B / 2 ^ 53 / 2 ^ 53)) / 2 ^ 53 :=
    le_trans h3 (div_le_div_of_nonneg_right e2 (by positivity))
  calc |r - q| = |(r - (p + d2)) + (d2 - (q - p))| := by ring_nf
    _ ≤ |r - (p + d2)| + |d2 - (q - p)| := abs_add _ _
    _ ≤ (B + (4 * B / 2 ^ 53 + 2 * B / 2 ^ 53 / 2 ^ 53)) / 2 ^ 53
          + (4 * B / 2 ^ 53 + 2 * B / 2 ^ 53 / 2 ^ 53) := add_le_add h3' e1
    _ ≤ 6 / 2 ^ 53 * B := by
        norm_num
        linarith

/-- At `t = 1` in `double` arithmetic, entry `j` after `k` rounds is entry `j + k` of the
starting vector up to `((1 + 6 * 2^-53)^k - 1) * B`, for the x coordinate, when the entries
read are bounded by `B`. -/
theorem roundsDouble_one_x (junk : Junk) (order : Nat) :
    ∀ (k : Nat) (temp : List Point) (j : Nat) (B : ℚ), 0 ≤ B → j + k ≤ order →
      (∀ i, i ≤ j + k → |(vecRead junk temp i).x| ≤ B) →
      |(vecRead junk (bezierRoundsDouble junk order 1 k temp) j).x
          - (vecRead junk temp (j + k)).x|
        ≤ ((1 + 6 / 2 ^ 53) ^ k - 1) * B := by
  intro k
  induction k with
  | zero =>
    intro temp j B _ _ _
    simp [bezierRoundsDouble]
  | succ k ih =>
    intro temp j B hB hj hb
    have hstep : ∀ i, i ≤ j + k →
        |(vecRead junk (bezierRoundDouble junk order 1 temp) i).x
            - (vecRead junk temp (i + 1)).x| ≤ 6 / 2 ^ 53 * B := by
      intro i hi
      rw [vecRead_bezierRoundDouble junk order 1 temp i (by omega)]
      exact lerpDouble_one_err _ _ B (hb i (by omega)) (hb (i + 1) (by omega))
    have hb1 : ∀ i, i ≤ j + k →
        |(vecRead junk (bezierRoundDouble junk order 1 temp) i).x|
          ≤ (1 + 6 / 2 ^ 53) * B := by
      intro i hi
      have h1 := hstep i hi
      have h2 := hb (i + 1) (by omega)
      have h3 := abs_sub_abs_le_abs_sub
        (vecRead junk (bezierRoundDouble junk order 1 temp) i).x
        (vecRead junk temp (i + 1)).x
      linarith
    have hih := ih (bezierRoundDouble junk order 1 temp) j ((1 + 6 / 2 ^ 53) * B)
      (by positivity) (by omega) hb1
    have hlast := hstep (j + k) (Nat.le_refl _)
    rw [bezierRoundsDouble]
    have e : j + (k + 1) = j + k + 1 := by omega
    rw [e]
    calc |(vecRead junk (bezierRoundsDouble junk order 1 k
              (bezierRoundDouble junk order 1 temp)) j).x
            - (vecRead junk temp (j + k + 1)).x|
        = |((vecRead junk (bezierRoundsDouble junk order 1 k
              (bezierRoundDouble junk order 1 temp)) j).x
            - (vecRead junk (bezierRoundDouble junk order 1 temp) (j + k)).x)
          + ((vecRead junk (bezierRoundDouble junk order 1 temp) (j + k)).x
            - (vecRead junk temp (j + k + 1)).x)| := by ring_nf
      _ ≤ ((1 + 6 / 2 ^ 53) ^ k - 1) * ((1 + 6 / 2 ^ 53) * B) + 6 / 2 ^ 53 * B :=
          le_trans (abs_add _ _) (add_le_add hih hlast)
      _ = ((1 + 6 / 2 ^ 53) ^ (k + 1) - 1) * B := by ring

/-- At `t = 1` in `double` arithmetic, entry `j` after `k` rounds is entry `j + k` of the
starting vector up to `((1 + 6 * 2^-53)^k - 1) * B`, for the y coordinate, when the entries
read are bounded by `B`. -/
theorem roundsDouble_one_y (junk : Junk) (order : Nat) :
    ∀ (k : Nat) (temp : List Point) (j : Nat) (B : ℚ), 0 ≤ B → j + k ≤ order →
      (∀ i, i ≤ j + k → |(vecRead junk temp i).y| ≤ B) →
      |(vecRead junk (bezierRoundsDouble junk order 1 k temp) j).y
          - (vecRead junk temp (j + k)).y|
        ≤ ((1 + 6 / 2 ^ 53) ^ k - 1) * B := by
  intro k
  induction k with
  | zero =>
    intro temp j B _ _ _
    simp [bezierRoundsDouble]
  | succ k ih =>
    intro temp j B hB hj hb
    have hstep : ∀ i, i ≤ j + k →
        |(vecRead junk (bezierRoundDouble junk order 1 temp) i).y
            - (vecRead junk temp (i + 1)).y| ≤ 6 / 2 ^ 53 * B := by
      intro i hi
      rw [vecRead_bezierRoundDouble junk order 1 temp i (by omega)]
      exact lerpDouble_one_err _ _ B (hb i (by omega)) (hb (i + 1) (by omega))
    have hb1 : ∀ i, i ≤ j + k →
        |(vecRead junk (bezierRoundDouble junk order 1 temp) i).y|
          ≤ (1 + 6 / 2 ^ 53) * B := by
      intro i hi
      have h1 := hstep i hi
      have h2 := hb (i + 1) (by omega)
      have h3 := abs_sub_abs_le_abs_sub
        (vecRead junk (bezierRoundDouble junk order 1 temp) i).y
        (vecRead junk temp (i + 1)).y
      linarith
    have hih := ih (bezierRoundDouble junk order 1 temp) j ((1 + 6 / 2 ^ 53) * B)
      (by positivity) (by omega) hb1
    have hlast := hstep (j + k) (Nat.le_refl _)
    rw [bezierRoundsDouble]
    have e : j + (k + 1) = j + k + 1 := by omega
    rw [e]
    calc |(vecRead junk (bezierRoundsDouble junk order 1 k
              (bezierRoundDouble junk order 1 temp)) j).y
            - (vecRead junk temp (j + k + 1)).y|
        = |((vecRead junk (bezierRoundsDouble junk order 1 k
              (bezierRoundDouble junk order 1 temp)) j).y
            - (vecRead junk (bezierRoundDouble junk order 1 temp) (j + k)).y)
          + ((vecRead junk (bezierRoundDouble junk order 1 temp) (j + k)).y
            - (vecRead junk temp (j + k + 1)).y)| := by ring_nf
      _ ≤ ((1 + 6 / 2 ^ 53) ^ k - 1) * ((1 + 6 / 2 ^ 53) * B) + 6 / 2 ^ 53 * B :=
          le_trans (abs_add _ _) (add_le_add hih hlast)
      _ = ((1 + 6 / 2 ^ 53) ^ (k + 1) - 1) * B := by ring

theorem bezierDouble_zero (junk : Junk) (c : Curve) (hv : ValidCurve c)
    (hd : ∀ p, c.anchorPoints.get? 0 = some p → IsDouble p.x ∧ IsDouble p.y) :
    some (bezierDouble junk c 0) = c.anchorPoints.get? 0 := by
  have hv0 := hv
  obtain ⟨h1, h2, h3⟩ := hv
  have hg : bezierInvalidOrder c = false := by
    simp [bezierInvalidOrder]; omega
  match ha : c.anchorPoints, h3 with
  | [a0, a1], _ =>
    have hda := hd a0 (by rw [ha]; rfl)
    have hr0 : vecRead junk (initTemp junk c) 0 = a0 := by
      rw [initTemp_eq_polygon junk c hv0]
      simp [polygon, ha, vecRead]
    have := roundsDouble_zero junk c.order.toNat c.order.toNat (initTemp junk c) 0 (by omega)
      (by rw [hr0]; exact hda.1) (by rw [hr0]; exact hda.2)
    simp only [bezierDouble, hg, Bool.false_eq_true, if_false, this, hr0]
    rfl

theorem bezierDouble_one (junk : Junk) (c : Curve) (B : ℚ) (hv : ValidCurve c)
    (hB : ∀ p, p ∈ polygon c → |p.x| ≤ B ∧ |p.y| ≤ B) (a1 : Point)
    (h1 : c.anchorPoints.get? 1 = some a1) :
    |(bezierDouble junk c 1).x - a1.x| ≤ ((1 + 6 / 2 ^ 53) ^ c.order.toNat - 1) * B
      ∧ |(bezierDouble junk c 1).y - a1.y| ≤ ((1 + 6 / 2 ^ 53) ^ c.order.toNat - 1) * B := by
  have hv0 := hv
  have hlen := polygon_length c hv0
  obtain ⟨ho1, ho2, h3⟩ := hv
  have hg : bezierInvalidOrder c = false := by
    simp [bezierInvalidOrder]; omega
  have hn : c.order.toNat = c.controlPoints.length + 1 := by omega
  have hmem : ∀ i, i ≤ 0 + c.order.toNat → vecRead junk (initTemp junk c) i ∈ polygon c := by
    intro i hi
    rw [initTemp_eq_polygon junk c hv0, vecRead_of_lt junk _ i (by omega)]
    exact List.get_mem _ _ _
  have hB0 : 0 ≤ B := by
    have := (hB _ (hmem 0 (by omega))).1
    exact le_trans (abs_nonneg _) this
  have hlast : vecRead junk (initTemp junk c) (0 + c.order.toNat) = a1 := by
    rw [initTemp_eq_polygon junk c hv0]
    match ha : c.anchorPoints, h3 with
    | [b0, b1], _ =>
      rw [ha] at h1
      have hb : b1 = a1 := by simpa using h1
      subst hb
      rw [vecRead_eq_getD junk _ _ defaultPoint (by omega), hn]
      simp [polygon, ha, List.getD_append_right]
  have hx := roundsDouble_one_x junk c.order.toNat c.order.toNat (initTemp junk c) 0 B hB0
    (by omega) (fun i hi => (hB _ (hmem i hi)).1)
  have hy := roundsDouble_one_y junk c.order.toNat c.order.toNat (initTemp junk c) 0 B hB0
    (by omega) (fun i hi => (hB _ (hmem i hi)).2)
  rw [hlast] at hx hy
  simp only [bezierDouble, hg, Bool.false_eq_true, if_false]
  exact ⟨hx, hy⟩

theorem isDouble_pointSeven : IsDouble pointSeven := by
  unfold IsDouble pointSeven
  have := roundDouble_eq_of (3152519739159347 / 4503599627370496) (-1) 6305039478318694
    (by norm_num [abs_of_pos]) (by norm_num [abs_of_pos]) (by norm_num [abs_lt])
  rw [this]
  norm_num

theorem isDouble_minusPointOne : IsDouble minusPointOne := by
  unfold IsDouble minusPointOne
  have := roundDouble_eq_of (-3602879701896397 / 36028797018963968) (-4) (-7205759403792794)
    (by norm_num [abs_of_neg]) (by norm_num [abs_of_neg]) (by norm_num [abs_lt])
  rw [this]
  norm_num

/-- The `double` difference `-0.1 - 0.7` is -0.7999999999999999. -/
theorem double_difference :
    roundDouble (minusPointOne - pointSeven) = -7205759403792793 / 9007199254740992 := by
  unfold pointSeven minusPointOne
  have := roundDouble_eq_of
    (-3602879701896397 / 36028797018963968 - 3152519739159347 / 4503599627370496) (-1)
    (-7205759403792793) (by norm_num [abs_of_neg]) (by norm_num [abs_of_neg])
    (by norm_num [abs_lt])
  rw [this]
  norm_num

/-- The `double` product `1 * -0.7999999999999999` is exact. -/
theorem double_product :
    roundDouble (1 * (-7205759403792793 / 9007199254740992))
      = -7205759403792793 / 9007199254740992 := by
  have := roundDouble_eq_of (1 * (-7205759403792793 / 9007199254740992)) (-1)
    (-7205759403792793) (by norm_num [abs_of_neg]) (by norm_num [abs_of_neg])
    (by norm_num [abs_lt])
  rw [this]
  norm_num

/-- The `double` sum `0.7 + -0.7999999999999999` is -0.09999999999999998. -/
theorem double_sum :
    roundDouble (pointSeven + -7205759403792793 / 9007199254740992)
      = -900719925474099 / 9007199254740992 := by
  unfold pointSeven
  have := roundDouble_eq_of
    (3152519739159347 / 4503599627370496 + -7205759403792793 / 9007199254740992) (-4)
    (-7205759403792792) (by norm_num [abs_of_neg]) (by norm_num [abs_of_neg])
    (by norm_num [abs_lt])
  rw [this]
  norm_num

theorem bezierDouble_order_one (junk : Junk) (a0 a1 : Point) (t : ℚ) :
    bezierDouble junk ⟨[], [a0, a1], 1⟩ t = lerpDouble a0 a1 t := by
  simp [bezierDouble, bezierInvalidOrder, initTemp, bezierRoundsDouble, bezierRoundDouble,
    vecRead]

/-- The value of `bezier` at `t = 1` on the line from (0.7, 0.7) to (-0.1, -0.1) in `double`
arithmetic. -/
theorem bezierDouble_slantLine (junk : Junk) :
    bezierDouble junk slantLine 1
      = ⟨-900719925474099 / 9007199254740992, -900719925474099 / 9007199254740992⟩ := by
  unfold slantLine
  rw [bezierDouble_order_one]
  simp only [lerpDouble, double_difference, double_product, double_sum]

/-! ## Claim on the end points -/

/-- C2 (as stated, refuted): `bezier(curve, 1)` is not `anchorPoints[1]` exactly.  On the
straight line from (0.7, 0.7) to (-0.1, -0.1) the code computes `0.7 + 1 * (-0.1 - 0.7)` in
`double` arithmetic, which is -0.09999999999999998, not -0.1. -/
theorem C2_double_end_point_differs :
    ¬ (∀ (junk : Junk) (c : Curve), ValidCurve c →
        (∀ p, p ∈ polygon c → IsDouble p.x ∧ IsDouble p.y) →
        some (bezierDouble junk c 1) = c.anchorPoints.get? 1) := by
  intro h
  have hv : ValidCurve slantLine := by decide
  have hd : ∀ p, p ∈ polygon slantLine → IsDouble p.x ∧ IsDouble p.y := by
    intro p hp
    have : p = ⟨pointSeven, pointSeven⟩ ∨ p = ⟨minusPointOne, minusPointOne⟩ := by
      simpa [polygon, slantLine] using hp
    rcases this with rfl | rfl
    · exact ⟨isDouble_pointSeven, isDouble_pointSeven⟩
    · exact ⟨isDouble_minusPointOne, isDouble_minusPointOne⟩
  have h1 := h sevenJunk slantLine hv hd
  rw [bezierDouble_slantLine] at h1
  have h2 : (-900719925474099 / 9007199254740992 : ℚ) = minusPointOne := by
    have := congrArg (fun o => o.map Point.x) h1
    simpa [slantLine] using this
  unfold minusPointOne at h2
  norm_num at h2

/-- C2 (amended): on a valid curve whose first anchor has `double` coordinates and whose
anchors and control points have coordinates of absolute value at most `B`, with `B` at most
2^1000 (so that no `double` operation overflows), `bezier(curve, 0)` is `anchorPoints[0]`
exactly, in `double` arithmetic; `bezier(curve, 1)` is `anchorPoints[1]` up to rounding: in
`double` arithmetic each coordinate differs from that of `anchorPoints[1]` by at most
`((1 + 6 * 2^-53)^order - 1) * B`. -/
theorem C2_bezier_endpoints_rounded (junk : Junk) (c : Curve) (B : ℚ) (hv : ValidCurve c)
    (hd : ∀ p, c.anchorPoints.get? 0 = some p → IsDouble p.x ∧ IsDouble p.y)
    (hB : ∀ p, p ∈ polygon c → |p.x| ≤ B ∧ |p.y| ≤ B) (_hmax : B ≤ 2 ^ 1000) :
    some (bezierDouble junk c 0) = c.anchorPoints.get? 0
      ∧ ∀ a1, c.anchorPoints.get? 1 = some a1 →
          |(bezierDouble junk c 1).x - a1.x| ≤ ((1 + 6 / 2 ^ 53) ^ c.order.toNat - 1) * B
            ∧ |(bezierDouble junk c 1).y - a1.y|
                ≤ ((1 + 6 / 2 ^ 53) ^ c.order.toNat - 1) * B :=
  ⟨bezierDouble_zero junk c hv hd, fun a1 h1 => bezierDouble_one junk c B hv hB a1 h1⟩

/-- Witness of C2: the line from (0.7, 0.7) to (-0.1, -0.1), with `B = 1`: at `t = 0` the
value is (0.7, 0.7); at `t = 1` it is within `6 * 2^-53` of (-0.1, -0.1). -/
theorem C2_bezier_endpoints_rounded_witness :
    ValidCurve slantLine
      ∧ some (bezierDouble sevenJunk slantLine 0) = slantLine.anchorPoints.get? 0
      ∧ ∀ a1, slantLine.anchorPoints.get? 1 = some a1 →
          |(bezierDouble sevenJunk slantLine 1).x - a1.x|
              ≤ ((1 + 6 / 2 ^ 53) ^ slantLine.order.toNat - 1) * 1
            ∧ |(bezierDouble sevenJunk slantLine 1).y - a1.y|
                ≤ ((1 + 6 / 2 ^ 53) ^ slantLine.order.toNat - 1) * 1 :=
  ⟨by decide,
   C2_bezier_endpoints_rounded sevenJunk slantLine 1 (by decide)
     (fun p hp => by
        have : p = ⟨pointSeven, pointSeven⟩ := by
          have h0 : slantLine.anchorPoints.get? 0 = some ⟨pointSeven, pointSeven⟩ := rfl
          rw [h0] at hp
          exact (Option.some.inj hp).symm
        subst this
        exact ⟨isDouble_pointSeven, isDouble_pointSeven⟩)
     (fun p hp => by
        have : p = ⟨pointSeven, pointSeven⟩ ∨ p = ⟨minusPointOne, minusPointOne⟩ := by
          simpa [polygon, slantLine] using hp
        rcases this with rfl | rfl
        · constructor <;> (unfold pointSeven; norm_num [abs_le])
        · constructor <;> (unfold minusPointOne; norm_num [abs_le]))
     (one_le_pow₀ (by norm_num))⟩

end Bezier
